import Mathlib

/-!
A shallow embedding of `advanced-vector/vector.h`.

The header defines two class templates: `RawMemory<T>`, which owns a block of
uninitialised storage, and `Vector<T>`, which keeps `size_` live objects at
the front of one `RawMemory<T>`.

Modelling conventions.

* A storage cell is a `Slot`: raw memory, a live object with a value, or a
  live object that has been moved from (its value is unspecified, so it is
  kept abstract).
* A `T*` into a block is modelled by the block together with an offset; an
  iterator of a `Vector` is its offset from `begin()`.
* `RawMemory::buffer_` is `Option (List (Slot α))`; `none` is `nullptr`.
* `size_t` is the 64-bit unsigned type.  The byte count `n * sizeof(T)` that
  `Allocate` hands to `operator new` is computed modulo `2 ^ 64`, since a
  caller of `Reserve`, `Resize` or `Vector(n)` chooses `n` freely; the block
  obtained holds as many cells as fit in that many bytes, while `capacity_`
  is `n`.  A write past the end of a block changes no cell of the model.
* The counters `size_` and `capacity_` are natural numbers.  On a vector that
  satisfies the data invariant the block is at most `PTRDIFF_MAX` bytes, so
  neither `size_ * 2` nor the byte count of the doubled storage wraps; a
  subtraction such as `size_ - 1` meets zero only outside the preconditions.
* `operator new` returns a block for every byte count it is given, and the
  debug-only `assert`s are not part of the model.
* Element operations (construction, copy, move, assignment) succeed, except
  in the definitions named `..._throwing`, where one construction throws.
* The compile-time test
  `is_nothrow_move_constructible_v<T> || !is_copy_constructible_v<T>` is read
  from the class `ElementTraits`.
-/

namespace AdvancedVector

/-- One cell of a storage block. -/
inductive Slot (α : Type) where
  | raw : Slot α
  | obj : α → Slot α
  | husk : Slot α
deriving DecidableEq

/-- The largest value of `size_t`. -/
def SIZE_MAX : Nat := 2 ^ 64 - 1

/-- The largest value of `ptrdiff_t`, which bounds the size in bytes of every
object and of every block that really exists. -/
def PTRDIFF_MAX : Nat := 2 ^ 63 - 1

/-- What the code consults about the element type `T`: the two type traits of
the relocation test and `sizeof(T)`, which is positive and at most
`PTRDIFF_MAX`. -/
class ElementTraits (α : Type) where
  is_nothrow_move_constructible : Bool
  is_copy_constructible : Bool
  sizeof : Nat
  sizeof_pos : 0 < sizeof
  sizeof_le : sizeof ≤ PTRDIFF_MAX

/-- The element type `int`, four bytes wide, with values read as naturals. -/
instance : ElementTraits Nat := ⟨true, true, 4, by decide, by decide⟩

namespace Slot

variable {α : Type}

/-- Whether the cell holds a live object with a known value. -/
def isObj : Slot α → Bool
  | obj _ => true
  | _ => false

/-- Whether the cell is uninitialised storage. -/
def isRaw : Slot α → Bool
  | raw => true
  | _ => false

/-- State of an object after `std::move` has taken its value. -/
def moved_from : Slot α → Slot α
  | obj _ => husk
  | s => s

end Slot

section Algorithms

variable {α : Type}

/-- Placement construction `new (p + i) T(x)`. -/
def construct_at (blk : List (Slot α)) (i : Nat) (x : α) : List (Slot α) :=
  blk.set i (Slot.obj x)

/-- The call `std::destroy_at(p + i)`. -/
def destroy_at (blk : List (Slot α)) (i : Nat) : List (Slot α) :=
  blk.set i Slot.raw

/-- The call `std::destroy_n(p + first, n)`. -/
def destroy_n : List (Slot α) → Nat → Nat → List (Slot α)
  | blk, _, 0 => blk
  | blk, first, n + 1 => destroy_n (destroy_at blk first) (first + 1) n

/-- The call `std::uninitialized_value_construct_n(p + first, n)`. -/
def uninitialized_value_construct_n [Inhabited α] :
    List (Slot α) → Nat → Nat → List (Slot α)
  | blk, _, 0 => blk
  | blk, first, n + 1 =>
    uninitialized_value_construct_n (construct_at blk first default) (first + 1) n

/-- The call `std::uninitialized_value_construct_n(p + first, n)` when the
value construction of the object number `k` (counted from zero, `k < n`)
throws: the `k` objects built so far are destroyed again before the exception
leaves the call. -/
def uninitialized_value_construct_n_throwing [Inhabited α] (blk : List (Slot α))
    (first k : Nat) : List (Slot α) :=
  destroy_n (uninitialized_value_construct_n blk first k) first k

/-- The call `std::uninitialized_copy_n(src + first, n, dst + d_first)`,
source and destination in different blocks; the result is the destination. -/
def uninitialized_copy_n (src : List (Slot α)) :
    Nat → Nat → List (Slot α) → Nat → List (Slot α)
  | _, 0, dst, _ => dst
  | first, n + 1, dst, d_first =>
    uninitialized_copy_n src (first + 1) n
      (dst.set d_first (src.getD first Slot.raw)) (d_first + 1)

/-- The call `std::uninitialized_move_n(src + first, n, dst + d_first)`,
source and destination in different blocks; the result is the pair of the
source block (its objects moved from) and the destination block. -/
def uninitialized_move_n :
    List (Slot α) → Nat → Nat → List (Slot α) → Nat → List (Slot α) × List (Slot α)
  | src, _, 0, dst, _ => (src, dst)
  | src, first, n + 1, dst, d_first =>
    uninitialized_move_n (src.set first (src.getD first Slot.raw).moved_from) (first + 1) n
      (dst.set d_first (src.getD first Slot.raw)) (d_first + 1)

/-- Move assignment `p[d] = std::move(p[s])` inside one block. -/
def move_assign (blk : List (Slot α)) (d s : Nat) : List (Slot α) :=
  (blk.set d (blk.getD s Slot.raw)).set s (blk.getD s Slot.raw).moved_from

/-- Move construction `new (p + d) T(std::move(p[s]))` inside one block. -/
def move_construct (blk : List (Slot α)) (d s : Nat) : List (Slot α) :=
  (blk.set d (blk.getD s Slot.raw)).set s (blk.getD s Slot.raw).moved_from

/-- The loop of `std::move_backward`: `n` times
`*(--d_last) = std::move(*(--last))`. -/
def move_backward_loop : List (Slot α) → Nat → Nat → Nat → List (Slot α)
  | blk, _, _, 0 => blk
  | blk, last, d_last, n + 1 =>
    move_backward_loop (move_assign blk (d_last - 1) (last - 1)) (last - 1) (d_last - 1) n

/-- The call `std::move_backward(p + first, p + last, p + d_last)`. -/
def move_backward (blk : List (Slot α)) (first last d_last : Nat) : List (Slot α) :=
  move_backward_loop blk last d_last (last - first)

/-- The loop of `std::move`: `n` times `*d_first++ = std::move(*first++)`. -/
def move_loop : List (Slot α) → Nat → Nat → Nat → List (Slot α)
  | blk, _, _, 0 => blk
  | blk, first, d_first, n + 1 =>
    move_loop (move_assign blk d_first first) (first + 1) (d_first + 1) n

/-- The call `std::move(p + first, p + last, p + d_first)`. -/
def move (blk : List (Slot α)) (first last d_first : Nat) : List (Slot α) :=
  move_loop blk first d_first (last - first)

/-- The loop `for (i = 0; i < n; ++i) dst[i] = src[i];` (copy assignment),
started at index `i`. -/
def copy_assign_loop (src : List (Slot α)) : List (Slot α) → Nat → Nat → List (Slot α)
  | dst, _, 0 => dst
  | dst, i, n + 1 => copy_assign_loop src (dst.set i (src.getD i Slot.raw)) (i + 1) n

end Algorithms

/-- The class template `RawMemory<T>`. -/
structure RawMemory (α : Type) where
  buffer_ : Option (List (Slot α)) := none
  capacity_ : Nat := 0
deriving DecidableEq

namespace RawMemory

variable {α : Type}

/-- The static member `Allocate(n)`: `operator new(n * sizeof(T))` for
`n != 0`, the byte count wrapping in `size_t`.  The block obtained holds as
many raw cells as fit in the bytes requested. -/
def Allocate [ElementTraits α] (n : Nat) : Option (List (Slot α)) :=
  if n ≠ 0 then
    some (List.replicate
      (n * ElementTraits.sizeof α % (SIZE_MAX + 1) / ElementTraits.sizeof α) Slot.raw)
  else none

/-- The constructor `RawMemory() = default`. -/
def ctor_default : RawMemory α := {}

/-- The constructor `RawMemory(size_t capacity)`. -/
def ctor_sized [ElementTraits α] (capacity : Nat) : RawMemory α :=
  { buffer_ := Allocate capacity, capacity_ := capacity }

/-- The member `Swap(other)`; the result is `(*this, other)` afterwards. -/
def Swap (self other : RawMemory α) : RawMemory α × RawMemory α :=
  ({ buffer_ := other.buffer_, capacity_ := other.capacity_ },
   { buffer_ := self.buffer_, capacity_ := self.capacity_ })

/-- The constructor `RawMemory(RawMemory&& other)`; the result is the new
object and `other` afterwards. -/
def ctor_move (other : RawMemory α) : RawMemory α × RawMemory α :=
  Swap ctor_default other

/-- The operator `operator=(RawMemory&& other)`; the result is `(*this, other)`
afterwards. -/
def assign_move (self other : RawMemory α) : RawMemory α × RawMemory α :=
  Swap self other

/-- The member `Capacity()`. -/
def Capacity (self : RawMemory α) : Nat := self.capacity_

/-- The cells behind `GetAddress()`; a null pointer has none. -/
def cells (self : RawMemory α) : List (Slot α) := self.buffer_.getD []

/-- Writing a block back through `GetAddress()`; nothing lies behind a null
pointer. -/
def store (self : RawMemory α) (blk : List (Slot α)) : RawMemory α :=
  { buffer_ := self.buffer_.map (fun _ => blk), capacity_ := self.capacity_ }

/-- The operator `operator[](index)`, read. -/
def get (self : RawMemory α) (index : Nat) : Slot α := self.cells.getD index Slot.raw

end RawMemory

/-- The class template `Vector<T>`. -/
structure Vector (α : Type) where
  data_ : RawMemory α := {}
  size_ : Nat := 0
deriving DecidableEq

namespace Vector

variable {α : Type}

/-- The member `Size()`. -/
def Size (self : Vector α) : Nat := self.size_

/-- The member `Capacity()`. -/
def Capacity (self : Vector α) : Nat := self.data_.Capacity

/-- The operator `operator[](index)`, read. -/
def get (self : Vector α) (index : Nat) : Slot α := self.data_.get index

/-- The cells of the range `[begin(), end())`. -/
def elements (self : Vector α) : List (Slot α) := self.data_.cells.take self.size_

/-- The block of `c` cells whose first cells hold the values `e` and whose
remaining cells are raw. -/
def layout (e : List α) (c : Nat) : List (Slot α) :=
  e.map Slot.obj ++ List.replicate (c - e.length) Slot.raw

/-- The constructor `Vector() = default`. -/
def ctor_default : Vector α := {}

/-- The constructor `Vector(size_t size)`. -/
def ctor_sized [Inhabited α] [ElementTraits α] (size : Nat) : Vector α :=
  let data : RawMemory α := RawMemory.ctor_sized size
  { data_ := data.store (uninitialized_value_construct_n data.cells 0 size), size_ := size }

/-- The constructor `Vector(const Vector& other)`. -/
def ctor_copy [ElementTraits α] (other : Vector α) : Vector α :=
  let data : RawMemory α := RawMemory.ctor_sized other.size_
  { data_ := data.store (uninitialized_copy_n other.data_.cells 0 other.size_ data.cells 0),
    size_ := other.size_ }

/-- The member `Swap(other)`; the result is `(*this, other)` afterwards. -/
def Swap (self other : Vector α) : Vector α × Vector α :=
  let d := self.data_.Swap other.data_
  ({ data_ := d.1, size_ := other.size_ }, { data_ := d.2, size_ := self.size_ })

/-- The operator `operator=(const Vector& other)`; the result is `*this`
afterwards (`other` is not modified, the temporary is destroyed). -/
def assign_copy [ElementTraits α] (self other : Vector α) : Vector α :=
  if other.Size > self.data_.Capacity then
    let tmp := ctor_copy other
    (self.Swap tmp).1
  else
    let blk := copy_assign_loop other.data_.cells self.data_.cells 0 (min self.Size other.Size)
    let blk :=
      if self.Size < other.Size then
        uninitialized_copy_n other.data_.cells self.Size (other.Size - self.Size) blk self.Size
      else if self.Size > other.Size then
        destroy_n blk other.Size (self.Size - other.Size)
      else blk
    { data_ := self.data_.store blk, size_ := other.Size }

/-- The constructor `Vector(Vector&& other)`; the result is the new object and
`other` afterwards. -/
def ctor_move (other : Vector α) : Vector α × Vector α :=
  Swap ctor_default other

/-- The operator `operator=(Vector&& other)`; the result is `(*this, other)`
afterwards. -/
def assign_move (self other : Vector α) : Vector α × Vector α :=
  Swap self other

/-- The private member `MoveOrCopyElements(from, to, count)`; the result is
the pair of the source block and the destination block afterwards. -/
def MoveOrCopyElements [ElementTraits α] (src : List (Slot α)) (first : Nat)
    (dst : List (Slot α)) (d_first : Nat) (count : Nat) : List (Slot α) × List (Slot α) :=
  if ElementTraits.is_nothrow_move_constructible α || !ElementTraits.is_copy_constructible α then
    uninitialized_move_n src first count dst d_first
  else
    (src, uninitialized_copy_n src first count dst d_first)

/-- The member `Emplace(pos, args...)`; `pos` is the offset `pos - begin()`
and `x` the value `T(args...)`.  The result is `*this` afterwards and the
offset of the returned iterator from the new `begin()`. -/
def Emplace [ElementTraits α] (self : Vector α) (pos : Nat) (x : α) : Vector α × Nat :=
  let result := pos
  if self.size_ = result then
    if self.size_ = self.Capacity then
      let capacity_tmp := if self.size_ = 0 then 0 + 1 else 0 + self.size_ * 2
      let new_data : RawMemory α := RawMemory.ctor_sized capacity_tmp
      let new_blk := construct_at new_data.cells self.size_ x
      let r := MoveOrCopyElements self.data_.cells 0 new_blk 0 self.size_
      let old := self.data_.store (destroy_n r.1 0 self.size_)
      let d := old.Swap (new_data.store r.2)
      ({ data_ := d.1, size_ := self.size_ + 1 }, result)
    else
      ({ data_ := self.data_.store (construct_at self.data_.cells self.size_ x),
         size_ := self.size_ + 1 }, result)
  else if self.size_ < self.Capacity then
    let tmp := x
    let blk := move_construct self.data_.cells self.size_ (self.size_ - 1)
    let blk := move_backward blk result (self.size_ - 1) self.size_
    let blk := blk.set result (Slot.obj tmp)
    ({ data_ := self.data_.store blk, size_ := self.size_ + 1 }, result)
  else
    let new_data : RawMemory α := RawMemory.ctor_sized (self.size_ * 2)
    let new_blk := construct_at new_data.cells result x
    let r := MoveOrCopyElements self.data_.cells 0 new_blk 0 result
    let r := MoveOrCopyElements r.1 result r.2 (result + 1) (self.size_ - result)
    let old := self.data_.store (destroy_n r.1 0 self.size_)
    let d := old.Swap (new_data.store r.2)
    ({ data_ := d.1, size_ := self.size_ + 1 }, result)

/-- The member `Erase(pos)`; `pos` is the offset `pos - begin()`.  The result
is `*this` afterwards and the offset of the returned iterator. -/
def Erase (self : Vector α) (pos : Nat) : Vector α × Nat :=
  let pos_it := pos
  let blk := move self.data_.cells (pos_it + 1) self.size_ pos_it
  let size := self.size_ - 1
  ({ data_ := self.data_.store (destroy_n blk size 1), size_ := size }, pos_it)

/-- The members `Insert(pos, const T& value)` and `Insert(pos, T&& value)`. -/
def Insert [ElementTraits α] (self : Vector α) (pos : Nat) (value : α) : Vector α × Nat :=
  self.Emplace pos value

/-- The member `Reserve(new_capacity)`. -/
def Reserve [ElementTraits α] (self : Vector α) (new_capacity : Nat) : Vector α :=
  if new_capacity ≤ self.data_.Capacity then
    self
  else
    let new_data : RawMemory α := RawMemory.ctor_sized new_capacity
    let r :=
      if ElementTraits.is_nothrow_move_constructible α
          || !ElementTraits.is_copy_constructible α then
        uninitialized_move_n self.data_.cells 0 self.size_ new_data.cells 0
      else
        (self.data_.cells, uninitialized_copy_n self.data_.cells 0 self.size_ new_data.cells 0)
    let old := self.data_.store (destroy_n r.1 0 self.Size)
    let d := old.Swap (new_data.store r.2)
    { data_ := d.1, size_ := self.size_ }

/-- The member `Resize(new_size)`. -/
def Resize [Inhabited α] [ElementTraits α] (self : Vector α) (new_size : Nat) : Vector α :=
  if self.size_ < new_size then
    let v := self.Reserve new_size
    { data_ := v.data_.store
        (uninitialized_value_construct_n v.data_.cells v.Size (new_size - v.Size)),
      size_ := new_size }
  else if self.size_ > new_size then
    { data_ := self.data_.store (destroy_n self.data_.cells new_size (self.Size - new_size)),
      size_ := new_size }
  else
    { data_ := self.data_, size_ := new_size }

/-- The member `EmplaceBack(args...)`: `*Emplace(end(), args...)`.  The result
is `*this` afterwards and the cell the returned reference designates. -/
def EmplaceBack [ElementTraits α] (self : Vector α) (x : α) : Vector α × Slot α :=
  let r := self.Emplace self.size_ x
  (r.1, r.1.data_.get r.2)

/-- The member `PushBack(value)`. -/
def PushBack [ElementTraits α] (self : Vector α) (value : α) : Vector α :=
  (self.EmplaceBack value).1

/-- The member `PopBack()`. -/
def PopBack (self : Vector α) : Vector α :=
  { data_ := self.data_.store (destroy_at self.data_.cells (self.size_ - 1)),
    size_ := self.size_ - 1 }

/-- The calls `PushBack(x)` for the values `x` of a list, in order. -/
def push_backs [ElementTraits α] (self : Vector α) (values : List α) : Vector α :=
  values.foldl PushBack self

/-- The member `Emplace(pos, args...)` when the construction `T(args...)` may
throw: `ctor` is `some x` when it yields the value `x` and `none` when it
throws.  The result is `*this` as control leaves the call and, when no
exception does, the offset of the returned iterator.  On the two reallocating
paths the exception unwinds through the destructor of the local `new_data`,
which releases the fresh block. -/
def Emplace_throwing [ElementTraits α] (self : Vector α) (pos : Nat) (ctor : Option α) :
    Vector α × Option Nat :=
  let result := pos
  if self.size_ = result then
    if self.size_ = self.Capacity then
      let capacity_tmp := if self.size_ = 0 then 0 + 1 else 0 + self.size_ * 2
      let new_data : RawMemory α := RawMemory.ctor_sized capacity_tmp
      match ctor with
      | none => (self, none)
      | some x =>
        let new_blk := construct_at new_data.cells self.size_ x
        let r := MoveOrCopyElements self.data_.cells 0 new_blk 0 self.size_
        let old := self.data_.store (destroy_n r.1 0 self.size_)
        let d := old.Swap (new_data.store r.2)
        ({ data_ := d.1, size_ := self.size_ + 1 }, some result)
    else
      match ctor with
      | none => (self, none)
      | some x =>
        ({ data_ := self.data_.store (construct_at self.data_.cells self.size_ x),
           size_ := self.size_ + 1 }, some result)
  else if self.size_ < self.Capacity then
    match ctor with
    | none => (self, none)
    | some tmp =>
      let blk := move_construct self.data_.cells self.size_ (self.size_ - 1)
      let blk := move_backward blk result (self.size_ - 1) self.size_
      let blk := blk.set result (Slot.obj tmp)
      ({ data_ := self.data_.store blk, size_ := self.size_ + 1 }, some result)
  else
    let new_data : RawMemory α := RawMemory.ctor_sized (self.size_ * 2)
    match ctor with
    | none => (self, none)
    | some x =>
      let new_blk := construct_at new_data.cells result x
      let r := MoveOrCopyElements self.data_.cells 0 new_blk 0 result
      let r := MoveOrCopyElements r.1 result r.2 (result + 1) (self.size_ - result)
      let old := self.data_.store (destroy_n r.1 0 self.size_)
      let d := old.Swap (new_data.store r.2)
      ({ data_ := d.1, size_ := self.size_ + 1 }, some result)

/-- The member `Resize(new_size)` when, on the growing path, the value
construction of the new object number `k` (counted from zero) throws.  The
result is `*this` as the exception leaves the call: `Reserve(new_size)` has
run, the objects built so far have been destroyed again, and the assignment
`size_ = new_size` has not been reached.  The other paths construct nothing. -/
def Resize_throwing [Inhabited α] [ElementTraits α] (self : Vector α) (new_size k : Nat) :
    Vector α :=
  if self.size_ < new_size then
    let v := self.Reserve new_size
    { data_ := v.data_.store (uninitialized_value_construct_n_throwing v.data_.cells v.Size k),
      size_ := v.size_ }
  else
    self.Resize new_size

end Vector

/-- The data invariant of `RawMemory`: the block has `capacity_` cells, the
pointer is null exactly when the capacity is zero, and the block is one that
really exists, at most `PTRDIFF_MAX` bytes. -/
def RawMemory.WF {α : Type} [ElementTraits α] (m : RawMemory α) : Prop :=
  m.cells.length = m.capacity_ ∧ (m.buffer_.isNone = true ↔ m.capacity_ = 0) ∧
    m.capacity_ * ElementTraits.sizeof α ≤ PTRDIFF_MAX

instance {α : Type} [ElementTraits α] (m : RawMemory α) : Decidable m.WF :=
  inferInstanceAs
    (Decidable (m.cells.length = m.capacity_ ∧ (m.buffer_.isNone = true ↔ m.capacity_ = 0) ∧
      m.capacity_ * ElementTraits.sizeof α ≤ PTRDIFF_MAX))

/-- The data invariant of `Vector`: the storage is well formed,
`size_ <= capacity_`, the cells `[0, size_)` hold live objects with a value
and the cells `[size_, capacity_)` are raw. -/
def Vector.WF {α : Type} [ElementTraits α] (v : Vector α) : Prop :=
  v.data_.WF ∧ v.size_ ≤ v.data_.capacity_ ∧
    (∀ s ∈ v.data_.cells.take v.size_, s.isObj = true) ∧
    (∀ s ∈ v.data_.cells.drop v.size_, s.isRaw = true)

instance {α : Type} [ElementTraits α] (v : Vector α) : Decidable v.WF :=
  inferInstanceAs
    (Decidable (v.data_.WF ∧ v.size_ ≤ v.data_.capacity_ ∧
      (∀ s ∈ v.data_.cells.take v.size_, s.isObj = true) ∧
      (∀ s ∈ v.data_.cells.drop v.size_, s.isRaw = true)))

/-- The vector `v` holds exactly the values `e`, in order, in storage of
capacity `c`. -/
structure Vector.Holds {α : Type} (v : Vector α) (e : List α) (c : Nat) : Prop where
  size_eq : v.size_ = e.length
  capacity_eq : v.data_.capacity_ = c
  size_le : e.length ≤ c
  null_iff : v.data_.buffer_ = none ↔ c = 0
  cells_eq : v.data_.cells = Vector.layout e c

/-- The vectors a program can build: those produced by a constructor and
those left behind by a member function called within its precondition on
vectors that can be built. -/
inductive Reachable {α : Type} [Inhabited α] [ElementTraits α] : Vector α → Prop where
  | ctor_default : Reachable Vector.ctor_default
  | ctor_sized (size : Nat) : Reachable (Vector.ctor_sized size)
  | ctor_copy {other : Vector α} : Reachable other → Reachable (Vector.ctor_copy other)
  | ctor_move {other : Vector α} : Reachable other → Reachable (Vector.ctor_move other).1
  | ctor_move_source {other : Vector α} :
      Reachable other → Reachable (Vector.ctor_move other).2
  | Emplace {v : Vector α} (pos : Nat) (x : α) :
      Reachable v → pos ≤ v.Size → Reachable (v.Emplace pos x).1
  | Insert {v : Vector α} (pos : Nat) (value : α) :
      Reachable v → pos ≤ v.Size → Reachable (v.Insert pos value).1
  | Erase {v : Vector α} (pos : Nat) :
      Reachable v → pos < v.Size → Reachable (v.Erase pos).1
  | Resize {v : Vector α} (new_size : Nat) : Reachable v → Reachable (v.Resize new_size)
  | EmplaceBack {v : Vector α} (x : α) : Reachable v → Reachable (v.EmplaceBack x).1
  | PushBack {v : Vector α} (value : α) : Reachable v → Reachable (v.PushBack value)
  | PopBack {v : Vector α} : Reachable v → 0 < v.Size → Reachable v.PopBack
  | Reserve {v : Vector α} (new_capacity : Nat) :
      Reachable v → Reachable (v.Reserve new_capacity)
  | Swap {v other : Vector α} : Reachable v → Reachable other → Reachable (v.Swap other).1
  | Swap_other {v other : Vector α} :
      Reachable v → Reachable other → Reachable (v.Swap other).2
  | assign_copy {v other : Vector α} :
      Reachable v → Reachable other → Reachable (v.assign_copy other)
  | assign_move {v other : Vector α} :
      Reachable v → Reachable other → Reachable (v.assign_move other).1
  | assign_move_source {v other : Vector α} :
      Reachable v → Reachable other → Reachable (v.assign_move other).2

section ListFacts
variable {β : Type}

theorem set_at_len (A : List β) (m m' : β) (R : List β) (k : Nat) (hk : k = A.length) :
    (A ++ m :: R).set k m' = A ++ m' :: R := by
  subst hk
  induction A with
  | nil => rfl
  | cons a A ih => simp [ih]

theorem getD_at_len (A : List β) (m : β) (R : List β) (k : Nat) (d : β) (hk : k = A.length) :
    (A ++ m :: R).getD k d = m := by
  subst hk
  induction A with
  | nil => rfl
  | cons a A ih => simpa using ih

end ListFacts

section AlgorithmFacts
variable {α : Type}

@[simp] theorem length_construct_at (blk : List (Slot α)) (i : Nat) (x : α) :
    (construct_at blk i x).length = blk.length := by
  simp [construct_at]

@[simp] theorem length_destroy_at (blk : List (Slot α)) (i : Nat) :
    (destroy_at blk i).length = blk.length := by
  simp [destroy_at]

@[simp] theorem length_destroy_n (blk : List (Slot α)) (first n : Nat) :
    (destroy_n blk first n).length = blk.length := by
  induction n generalizing blk first with
  | zero => rfl
  | succ n ih => simp [destroy_n, ih]

@[simp] theorem length_uninitialized_copy_n (src dst : List (Slot α)) (first n d_first : Nat) :
    (uninitialized_copy_n src first n dst d_first).length = dst.length := by
  induction n generalizing dst first d_first with
  | zero => rfl
  | succ n ih => simp [uninitialized_copy_n, ih]

@[simp] theorem length_move_assign (blk : List (Slot α)) (d s : Nat) :
    (move_assign blk d s).length = blk.length := by
  simp [move_assign]

@[simp] theorem length_move_construct (blk : List (Slot α)) (d s : Nat) :
    (move_construct blk d s).length = blk.length := by
  simp [move_construct]

@[simp] theorem length_move_backward_loop (blk : List (Slot α)) (last d_last n : Nat) :
    (move_backward_loop blk last d_last n).length = blk.length := by
  induction n generalizing blk last d_last with
  | zero => rfl
  | succ n ih => simp [move_backward_loop, ih]

@[simp] theorem length_move_backward (blk : List (Slot α)) (first last d_last : Nat) :
    (move_backward blk first last d_last).length = blk.length := by
  simp [move_backward]

@[simp] theorem length_move_loop (blk : List (Slot α)) (first d_first n : Nat) :
    (move_loop blk first d_first n).length = blk.length := by
  induction n generalizing blk first d_first with
  | zero => rfl
  | succ n ih => simp [move_loop, ih]

@[simp] theorem length_move (blk : List (Slot α)) (first last d_first : Nat) :
    (move blk first last d_first).length = blk.length := by
  simp [move]

@[simp] theorem length_copy_assign_loop (src dst : List (Slot α)) (i n : Nat) :
    (copy_assign_loop src dst i n).length = dst.length := by
  induction n generalizing dst i with
  | zero => rfl
  | succ n ih => simp [copy_assign_loop, ih]

/-- Destroying the `n` cells that follow `A` leaves `n` raw cells there. -/
theorem destroy_n_shape (A M R : List (Slot α)) (k n : Nat) (hk : k = A.length)
    (hn : n = M.length) :
    destroy_n (A ++ M ++ R) k n = A ++ List.replicate n Slot.raw ++ R := by
  induction M generalizing A k n with
  | nil => subst hn; simp [destroy_n]
  | cons m M ih =>
    subst hn
    have h1 : destroy_at (A ++ m :: M ++ R) k = (A ++ [Slot.raw]) ++ M ++ R := by
      have := set_at_len A m Slot.raw (M ++ R) k hk
      simpa [destroy_at] using this
    simp only [List.length_cons, destroy_n, h1]
    rw [ih (A ++ [Slot.raw]) (k + 1) M.length (by simp [hk]) rfl]
    simp [List.replicate_succ]

/-- Value-constructing the `n` cells that follow `A` leaves `n` default
objects there. -/
theorem uninitialized_value_construct_n_shape [Inhabited α] (A M R : List (Slot α))
    (k n : Nat) (hk : k = A.length) (hn : n = M.length) :
    uninitialized_value_construct_n (A ++ M ++ R) k n
      = A ++ List.replicate n (Slot.obj default) ++ R := by
  induction M generalizing A k n with
  | nil => subst hn; simp [uninitialized_value_construct_n]
  | cons m M ih =>
    subst hn
    have h1 : construct_at (A ++ m :: M ++ R) k default
        = (A ++ [Slot.obj (default : α)]) ++ M ++ R := by
      have := set_at_len A m (Slot.obj (default : α)) (M ++ R) k hk
      simpa [construct_at] using this
    simp only [List.length_cons, uninitialized_value_construct_n, h1]
    rw [ih (A ++ [Slot.obj default]) (k + 1) M.length (by simp [hk]) rfl]
    simp [List.replicate_succ]

/-- Copying the run `M` of the source over the run `D` of the destination. -/
theorem uninitialized_copy_n_shape (A M B C D E : List (Slot α)) (k n j : Nat)
    (hk : k = A.length) (hn : n = M.length) (hj : j = C.length) (hD : D.length = M.length) :
    uninitialized_copy_n (A ++ M ++ B) k n (C ++ D ++ E) j = C ++ M ++ E := by
  induction M generalizing A C D k n j with
  | nil =>
    subst hn
    have : D = [] := List.length_eq_zero.mp (by simpa using hD)
    simp [uninitialized_copy_n, this]
  | cons m M ih =>
    subst hn
    obtain ⟨d, D, rfl⟩ : ∃ d D', D = d :: D' := by
      cases D with
      | nil => simp at hD
      | cons d D => exact ⟨d, D, rfl⟩
    have hr : (A ++ m :: M ++ B).getD k Slot.raw = m := by
      have := getD_at_len A m (M ++ B) k Slot.raw hk
      simpa using this
    have hs : (C ++ d :: D ++ E).set j m = (C ++ [m]) ++ D ++ E := by
      have := set_at_len C d m (D ++ E) j hj
      simpa using this
    have hA : A ++ m :: M ++ B = (A ++ [m]) ++ M ++ B := by simp
    simp only [List.length_cons, uninitialized_copy_n, hr, hs]
    rw [hA, ih (A ++ [m]) (C ++ [m]) D (k + 1) M.length (j + 1) (by simp [hk]) rfl
      (by simp [hj]) (by simpa using hD)]
    simp

/-- The destination of a copy does not depend on source cells before `first`. -/
theorem uninitialized_copy_n_set_src (src dst : List (Slot α)) (i first n d_first : Nat)
    (s : Slot α) (hi : i < first) :
    uninitialized_copy_n (src.set i s) first n dst d_first
      = uninitialized_copy_n src first n dst d_first := by
  induction n generalizing dst first d_first with
  | zero => rfl
  | succ n ih =>
    have hne : i ≠ first := by omega
    simp only [uninitialized_copy_n]
    rw [ih _ (first + 1) _ (by omega)]
    congr 2
    simp [List.getD_eq_getElem?_getD, List.getElem?_set, hne]

/-- Moving and copying fill the destination alike. -/
theorem uninitialized_move_n_snd (src dst : List (Slot α)) (first n d_first : Nat) :
    (uninitialized_move_n src first n dst d_first).2
      = uninitialized_copy_n src first n dst d_first := by
  induction n generalizing src dst first d_first with
  | zero => rfl
  | succ n ih =>
    simp only [uninitialized_move_n, uninitialized_copy_n]
    rw [ih, uninitialized_copy_n_set_src _ _ _ _ _ _ _ (by omega)]

@[simp] theorem length_uninitialized_move_n_fst (src dst : List (Slot α))
    (first n d_first : Nat) :
    (uninitialized_move_n src first n dst d_first).1.length = src.length := by
  induction n generalizing src dst first d_first with
  | zero => rfl
  | succ n ih => simp [uninitialized_move_n, ih]

/-- The assignment loop and `uninitialized_copy_n` write the same cells. -/
theorem copy_assign_loop_eq (src dst : List (Slot α)) (i n : Nat) :
    copy_assign_loop src dst i n = uninitialized_copy_n src i n dst i := by
  induction n generalizing dst i with
  | zero => rfl
  | succ n ih => simp [copy_assign_loop, uninitialized_copy_n, ih]

end AlgorithmFacts

section AlgorithmFacts2
variable {α : Type}

/-- One move assignment from the cell after `A` onto the cell that follows it. -/
theorem move_assign_right (A R : List (Slot α)) (m : α) (t : Slot α) (d s : Nat)
    (hs : s = A.length) (hd : d = A.length + 1) :
    move_assign (A ++ Slot.obj m :: t :: R) d s = A ++ Slot.husk :: Slot.obj m :: R := by
  have h1 : (A ++ Slot.obj m :: t :: R).getD s Slot.raw = Slot.obj m :=
    getD_at_len A _ _ s _ hs
  have h2 : (A ++ Slot.obj m :: t :: R).set d (Slot.obj m) = A ++ Slot.obj m :: Slot.obj m :: R := by
    have := set_at_len (A ++ [Slot.obj m]) t (Slot.obj m) R d (by simp [hd])
    simpa using this
  simp only [move_assign, h1, h2, Slot.moved_from]
  exact set_at_len A _ _ _ s hs

/-- One move assignment from the second cell after `A` onto the first. -/
theorem move_assign_left (A R : List (Slot α)) (m : α) (t : Slot α) (d s : Nat)
    (hd : d = A.length) (hs : s = A.length + 1) :
    move_assign (A ++ t :: Slot.obj m :: R) d s = A ++ Slot.obj m :: Slot.husk :: R := by
  have h1 : (A ++ t :: Slot.obj m :: R).getD s Slot.raw = Slot.obj m := by
    have := getD_at_len (A ++ [t]) (Slot.obj m) R s Slot.raw (by simp [hs])
    simpa using this
  have h2 : (A ++ t :: Slot.obj m :: R).set d (Slot.obj m) = A ++ Slot.obj m :: Slot.obj m :: R :=
    set_at_len A _ _ _ d hd
  simp only [move_assign, h1, h2, Slot.moved_from]
  have := set_at_len (A ++ [Slot.obj m]) (Slot.obj m) Slot.husk R s (by simp [hs])
  simpa using this

/-- The backward shift: the run of objects `M` that ends just before a
moved-from cell travels one cell right, and the cell at its start is left
moved-from. -/
theorem move_backward_loop_shape (A R : List (Slot α)) (M : List α) (last d_last n : Nat)
    (hl : last = A.length + M.length) (hd : d_last = last + 1) (hn : n = M.length) :
    move_backward_loop (A ++ M.map Slot.obj ++ Slot.husk :: R) last d_last n
      = A ++ Slot.husk :: (M.map Slot.obj ++ R) := by
  induction n generalizing M R last d_last with
  | zero =>
    have : M = [] := List.length_eq_zero.mp hn.symm
    subst this
    simp [move_backward_loop]
  | succ n ih =>
    obtain ⟨M', m, rfl⟩ : ∃ M' m, M = M' ++ [m] := by
      rcases List.eq_nil_or_concat M with h | ⟨M', m, h⟩
      · subst h; simp at hn
      · exact ⟨M', m, by simpa using h⟩
    have hn' : n = M'.length := by simpa using hn
    have hstep : move_assign (A ++ (M' ++ [m]).map Slot.obj ++ Slot.husk :: R)
        (d_last - 1) (last - 1) = A ++ M'.map Slot.obj ++ Slot.husk :: (Slot.obj m :: R) := by
      have := move_assign_right (A ++ M'.map Slot.obj) R m Slot.husk (d_last - 1) (last - 1)
        (by simp [hl]) (by simp [hd, hl]; omega)
      simpa using this
    simp only [move_backward_loop, hstep]
    rw [ih (Slot.obj m :: R) M' (last - 1) (d_last - 1) (by simp [hl]) (by simp [hd, hl]; omega)
      hn']
    simp

/-- The forward shift: the run of objects `M` that follows the cell `t`
travels one cell left over `t`. -/
theorem move_loop_shape (A R : List (Slot α)) (M : List α) (t : Slot α) (first d_first n : Nat)
    (hf : first = A.length + 1) (hd : d_first = A.length) (hn : n = M.length) :
    ∃ s, move_loop (A ++ t :: (M.map Slot.obj ++ R)) first d_first n
      = A ++ M.map Slot.obj ++ s :: R := by
  induction M generalizing A t first d_first n with
  | nil => subst hn; exact ⟨t, by simp [move_loop]⟩
  | cons m M ih =>
    subst hn
    have hstep : move_assign (A ++ t :: ((m :: M).map Slot.obj ++ R)) d_first first
        = (A ++ [Slot.obj m]) ++ Slot.husk :: (M.map Slot.obj ++ R) := by
      have := move_assign_left A (M.map Slot.obj ++ R) m t d_first first hd hf
      simpa using this
    obtain ⟨s, hs⟩ := ih (A ++ [Slot.obj m]) Slot.husk (first + 1) (d_first + 1) M.length
      (by simp [hf]) (by simp [hd]) rfl
    refine ⟨s, ?_⟩
    simp only [List.length_cons, move_loop, hstep, hs]
    simp

end AlgorithmFacts2

section BlockFacts
variable {α : Type}

theorem replicate_split {β : Type} (b : β) (m i j : Nat) (h : m = i + j) :
    List.replicate m b = List.replicate i b ++ List.replicate j b := by
  subst h; exact List.replicate_add i j b

theorem replicate_split_cons {β : Type} (b : β) (m i j : Nat) (h : m = i + (j + 1)) :
    List.replicate m b = List.replicate i b ++ b :: List.replicate j b := by
  subst h; rw [List.replicate_add, List.replicate_succ]

/-- The source block after a move: the cells of the moved run are moved-from. -/
theorem uninitialized_move_n_fst_shape (A M B dst : List (Slot α)) (k n j : Nat)
    (hk : k = A.length) (hn : n = M.length) :
    (uninitialized_move_n (A ++ M ++ B) k n dst j).1 = A ++ M.map Slot.moved_from ++ B := by
  induction M generalizing A dst k n j with
  | nil => subst hn; simp [uninitialized_move_n]
  | cons m M ih =>
    subst hn
    have hr : (A ++ m :: M ++ B).getD k Slot.raw = m := by
      have := getD_at_len A m (M ++ B) k Slot.raw hk
      simpa using this
    have hs : (A ++ m :: M ++ B).set k m.moved_from = (A ++ [m.moved_from]) ++ M ++ B := by
      have := set_at_len A m m.moved_from (M ++ B) k hk
      simpa using this
    simp only [List.length_cons, uninitialized_move_n, hr, hs]
    rw [ih (A ++ [m.moved_from]) _ (k + 1) M.length _ (by simp [hk]) rfl]
    simp

/-- Relocation of the run `M` over the run `D`: the destination receives `M`;
the source keeps its shape. -/
theorem MoveOrCopyElements_shape [ElementTraits α] (A M B C D E : List (Slot α))
    (k n j : Nat) (hk : k = A.length) (hn : n = M.length) (hj : j = C.length)
    (hD : D.length = M.length) :
    ∃ M', M'.length = M.length ∧
      Vector.MoveOrCopyElements (A ++ M ++ B) k (C ++ D ++ E) j n
        = (A ++ M' ++ B, C ++ M ++ E) := by
  unfold Vector.MoveOrCopyElements
  split
  · refine ⟨M.map Slot.moved_from, by simp, ?_⟩
    apply Prod.ext
    · exact uninitialized_move_n_fst_shape A M B _ k n j hk hn
    · rw [uninitialized_move_n_snd]
      exact uninitialized_copy_n_shape A M B C D E k n j hk hn hj hD
  · exact ⟨M, rfl, by rw [uninitialized_copy_n_shape A M B C D E k n j hk hn hj hD]⟩

/-- The cells of a block that holds the values `e` at the front of `c` cells. -/
theorem layout_append (E1 E2 : List α) (c : Nat) :
    Vector.layout (E1 ++ E2) c
      = E1.map Slot.obj ++ E2.map Slot.obj
        ++ List.replicate (c - (E1.length + E2.length)) Slot.raw := by
  simp [Vector.layout]

/-- Appending with spare capacity. -/
theorem block_append_spare (e : List α) (x : α) (c n : Nat) (hn : n = e.length) (hc : n < c) :
    construct_at (Vector.layout e c) n x = Vector.layout (e ++ [x]) c := by
  have h := replicate_split_cons (Slot.raw : Slot α) (c - e.length) 0 (c - e.length - 1)
    (by omega)
  simp only [Vector.layout, construct_at, h, List.replicate_zero, List.nil_append]
  rw [set_at_len (e.map Slot.obj) _ _ _ n (by simp [hn])]
  simp
  omega

/-- Insertion into fresh storage: the new object is built first, then the
front and the back of the old block are relocated around it. -/
theorem block_insert_realloc [ElementTraits α] (E1 E2 : List α) (x : α) (c ct p n : Nat)
    (hp : p = E1.length) (hn : n = E1.length + E2.length) (hct : n < ct) :
    (Vector.MoveOrCopyElements
        (Vector.MoveOrCopyElements (Vector.layout (E1 ++ E2) c) 0
          (construct_at (List.replicate ct Slot.raw) p x) 0 p).1 p
        (Vector.MoveOrCopyElements (Vector.layout (E1 ++ E2) c) 0
          (construct_at (List.replicate ct Slot.raw) p x) 0 p).2 (p + 1) (n - p)).2
      = Vector.layout (E1 ++ x :: E2) ct := by
  have h0 : construct_at (List.replicate ct (Slot.raw : Slot α)) p x
      = [] ++ List.replicate p Slot.raw ++ (Slot.obj x :: List.replicate (ct - p - 1) Slot.raw) := by
    rw [replicate_split_cons (Slot.raw : Slot α) ct p (ct - p - 1) (by omega)]
    simp only [construct_at]
    rw [set_at_len _ _ _ _ p (by simp)]
    simp
  have hsrc : Vector.layout (E1 ++ E2) c
      = [] ++ E1.map Slot.obj ++ (E2.map Slot.obj
          ++ List.replicate (c - (E1.length + E2.length)) Slot.raw) := by
    simp [Vector.layout]
  obtain ⟨M', hM', h1⟩ := MoveOrCopyElements_shape [] (E1.map Slot.obj)
    (E2.map Slot.obj ++ List.replicate (c - (E1.length + E2.length)) Slot.raw)
    [] (List.replicate p Slot.raw) (Slot.obj x :: List.replicate (ct - p - 1) Slot.raw)
    0 p 0 rfl (by simp [hp]) rfl (by simp [hp])
  rw [h0, hsrc, h1]
  simp only [List.nil_append]
  have hd : E1.map Slot.obj ++ Slot.obj x :: List.replicate (ct - p - 1) (Slot.raw : Slot α)
      = (E1.map Slot.obj ++ [Slot.obj x]) ++ List.replicate (n - p) Slot.raw
        ++ List.replicate (ct - n - 1) Slot.raw := by
    rw [replicate_split (Slot.raw : Slot α) (ct - p - 1) (n - p) (ct - n - 1) (by omega)]
    simp
  have hs : M' ++ (E2.map Slot.obj
        ++ List.replicate (c - (E1.length + E2.length)) (Slot.raw : Slot α))
      = M' ++ E2.map Slot.obj ++ List.replicate (c - (E1.length + E2.length)) Slot.raw := by
    simp
  obtain ⟨M2, _, h2⟩ := MoveOrCopyElements_shape M' (E2.map Slot.obj)
    (List.replicate (c - (E1.length + E2.length)) Slot.raw)
    (E1.map Slot.obj ++ [Slot.obj x]) (List.replicate (n - p) Slot.raw)
    (List.replicate (ct - n - 1) Slot.raw) p (n - p) (p + 1)
    (by simp [hM', hp]) (by simp [hn, hp]) (by simp [hp]) (by simp [hn, hp])
  rw [hd, hs, h2]
  simp [Vector.layout]
  omega

end BlockFacts

section BlockFacts2
variable {α : Type}

/-- Appending into fresh storage. -/
theorem block_append_realloc [ElementTraits α] (e : List α) (x : α) (c ct n : Nat)
    (hn : n = e.length) (hct : n < ct) :
    (Vector.MoveOrCopyElements (Vector.layout e c) 0
        (construct_at (List.replicate ct Slot.raw) n x) 0 n).2
      = Vector.layout (e ++ [x]) ct := by
  have h0 : construct_at (List.replicate ct (Slot.raw : Slot α)) n x
      = [] ++ List.replicate n Slot.raw ++ (Slot.obj x :: List.replicate (ct - n - 1) Slot.raw) := by
    rw [replicate_split_cons (Slot.raw : Slot α) ct n (ct - n - 1) (by omega)]
    simp only [construct_at]
    rw [set_at_len _ _ _ _ n (by simp)]
    simp
  have hsrc : Vector.layout e c
      = [] ++ e.map Slot.obj ++ List.replicate (c - e.length) Slot.raw := by
    simp [Vector.layout]
  obtain ⟨M', _, h1⟩ := MoveOrCopyElements_shape [] (e.map Slot.obj)
    (List.replicate (c - e.length) Slot.raw)
    [] (List.replicate n Slot.raw) (Slot.obj x :: List.replicate (ct - n - 1) Slot.raw)
    0 n 0 rfl (by simp [hn]) rfl (by simp [hn])
  rw [h0, hsrc, h1]
  simp [Vector.layout]
  omega

/-- Move construction from the cell after `A` into the cell that follows it. -/
theorem move_construct_right (A R : List (Slot α)) (m : α) (t : Slot α) (d s : Nat)
    (hs : s = A.length) (hd : d = A.length + 1) :
    move_construct (A ++ Slot.obj m :: t :: R) d s = A ++ Slot.husk :: Slot.obj m :: R :=
  move_assign_right A R m t d s hs hd

/-- Insertion before an existing element with spare capacity. -/
theorem block_insert_spare (E1 E2 : List α) (l x : α) (c p n : Nat)
    (hp : p = E1.length) (hn : n = E1.length + E2.length + 1) (hc : n < c) :
    (move_backward (move_construct (Vector.layout (E1 ++ E2 ++ [l]) c) n (n - 1)) p (n - 1) n).set
        p (Slot.obj x)
      = Vector.layout (E1 ++ x :: E2 ++ [l]) c := by
  have hlay : Vector.layout (E1 ++ E2 ++ [l]) c
      = (E1.map Slot.obj ++ E2.map Slot.obj) ++ Slot.obj l :: Slot.raw
          :: List.replicate (c - n - 1) Slot.raw := by
    have h := replicate_split_cons (Slot.raw : Slot α) (c - (E1 ++ E2 ++ [l]).length) 0
      (c - n - 1) (by simp; omega)
    simp only [Vector.layout, h]
    simp
  have h1 := move_construct_right (E1.map Slot.obj ++ E2.map Slot.obj)
    (List.replicate (c - n - 1) Slot.raw) l Slot.raw n (n - 1) (by simp [hn]) (by simp [hn])
  have h2 := move_backward_loop_shape (E1.map Slot.obj)
    (Slot.obj l :: List.replicate (c - n - 1) Slot.raw) E2 (n - 1) n (n - 1 - p)
    (by simp [hn]) (by omega) (by omega)
  rw [hlay, h1]
  simp only [move_backward]
  rw [h2, set_at_len _ _ _ _ p (by simp [hp])]
  simp [Vector.layout]
  omega

/-- Erasing the element that follows `E1`. -/
theorem block_erase (E1 E2 : List α) (t : α) (c p n : Nat)
    (hp : p = E1.length) (hn : n = E1.length + E2.length + 1) (hc : n ≤ c) :
    destroy_n (move (Vector.layout (E1 ++ t :: E2) c) (p + 1) n p) (n - 1) 1
      = Vector.layout (E1 ++ E2) c := by
  have hlay : Vector.layout (E1 ++ t :: E2) c
      = E1.map Slot.obj ++ Slot.obj t :: (E2.map Slot.obj ++ List.replicate (c - n) Slot.raw) := by
    simp [Vector.layout, hn]
    omega
  obtain ⟨s, hs⟩ := move_loop_shape (E1.map Slot.obj) (List.replicate (c - n) Slot.raw) E2
    (Slot.obj t) (p + 1) p (n - (p + 1)) (by simp [hp]) (by simp [hp]) (by omega)
  have hd := destroy_n_shape (E1.map Slot.obj ++ E2.map Slot.obj) [s]
    (List.replicate (c - n) Slot.raw) (n - 1) 1 (by simp [hn]) rfl
  simp only [move]
  rw [hlay, hs]
  have hre : E1.map Slot.obj ++ E2.map Slot.obj ++ s :: List.replicate (c - n) Slot.raw
      = E1.map Slot.obj ++ E2.map Slot.obj ++ [s] ++ List.replicate (c - n) Slot.raw := by simp
  rw [hre, hd]
  have h := replicate_split_cons (Slot.raw : Slot α) (c - (E1.length + E2.length)) 0 (c - n)
    (by omega)
  simp [Vector.layout, h]

/-- Destroying the last element. -/
theorem block_pop_back (e : List α) (l : α) (c n : Nat) (hn : n = e.length + 1) (hc : n ≤ c) :
    destroy_at (Vector.layout (e ++ [l]) c) (n - 1) = Vector.layout e c := by
  have h := replicate_split_cons (Slot.raw : Slot α) (c - e.length) 0 (c - n) (by omega)
  have hlay : Vector.layout (e ++ [l]) c
      = e.map Slot.obj ++ Slot.obj l :: List.replicate (c - n) Slot.raw := by
    simp [Vector.layout, hn]
  simp only [destroy_at]
  rw [hlay, set_at_len _ _ _ _ (n - 1) (by simp [hn])]
  simp [Vector.layout, h]

/-- Copying a whole block into fresh storage of `m` cells. -/
theorem block_copy (e : List α) (c m n : Nat) (hn : n = e.length) (hm : n ≤ m) :
    uninitialized_copy_n (Vector.layout e c) 0 n (List.replicate m Slot.raw) 0
      = Vector.layout e m := by
  have h := uninitialized_copy_n_shape [] (e.map Slot.obj)
    (List.replicate (c - e.length) Slot.raw) [] (List.replicate n Slot.raw)
    (List.replicate (m - n) Slot.raw) 0 n 0 rfl (by simp [hn]) rfl (by simp [hn])
  rw [replicate_split (Slot.raw : Slot α) m n (m - n) (by omega)]
  simpa [Vector.layout, hn] using h

/-- Value construction of a whole fresh block. -/
theorem block_value_construct [Inhabited α] (n : Nat) :
    uninitialized_value_construct_n (List.replicate n (Slot.raw : Slot α)) 0 n
      = Vector.layout (List.replicate n default) n := by
  have h := uninitialized_value_construct_n_shape ([] : List (Slot α))
    (List.replicate n Slot.raw) [] 0 n rfl (by simp)
  simpa [Vector.layout] using h

/-- Value construction of the cells `[n, m)`. -/
theorem block_resize_grow [Inhabited α] (e : List α) (c m n : Nat) (hn : n = e.length)
    (hnm : n ≤ m) (hm : m ≤ c) :
    uninitialized_value_construct_n (Vector.layout e c) n (m - n)
      = Vector.layout (e ++ List.replicate (m - n) default) c := by
  have h := uninitialized_value_construct_n_shape (e.map Slot.obj)
    (List.replicate (m - n) Slot.raw) (List.replicate (c - m) Slot.raw) n (m - n)
    (by simp [hn]) (by simp)
  have hs := replicate_split (Slot.raw : Slot α) (c - e.length) (m - n) (c - m) (by omega)
  simp only [Vector.layout, hs]
  simp only [← List.append_assoc]
  rw [h]
  simp
  omega

/-- Destruction of the cells `[m, n)`. -/
theorem block_resize_shrink (e : List α) (c m n : Nat) (hn : n = e.length) (hmn : m ≤ n)
    (hc : n ≤ c) :
    destroy_n (Vector.layout e c) m (n - m) = Vector.layout (e.take m) c := by
  have h := destroy_n_shape ((e.take m).map Slot.obj) ((e.drop m).map Slot.obj)
    (List.replicate (c - n) Slot.raw) m (n - m) (by simp; omega) (by simp [hn])
  have he : Vector.layout e c
      = (e.take m).map Slot.obj ++ (e.drop m).map Slot.obj ++ List.replicate (c - n) Slot.raw := by
    rw [← List.map_append, List.take_append_drop, hn]
    rfl
  rw [he, h]
  simp [Vector.layout]
  omega

end BlockFacts2

section StorageFacts
variable {α : Type}

theorem length_layout (e : List α) (c : Nat) (h : e.length ≤ c) :
    (Vector.layout e c).length = c := by
  simp [Vector.layout]; omega

theorem PTRDIFF_MAX_eq : PTRDIFF_MAX = 9223372036854775807 := by
  norm_num [PTRDIFF_MAX]

theorem SIZE_MAX_eq : SIZE_MAX = 18446744073709551615 := by
  norm_num [SIZE_MAX]

/-- A count below the capacity of a block that really exists has a byte count
that does not wrap. -/
theorem fits_of_le [ElementTraits α] {n c : Nat}
    (hc : c * ElementTraits.sizeof α ≤ PTRDIFF_MAX) (hn : n ≤ c) :
    n * ElementTraits.sizeof α < SIZE_MAX + 1 := by
  have h1 : n * ElementTraits.sizeof α ≤ c * ElementTraits.sizeof α :=
    Nat.mul_le_mul_right _ hn
  rw [PTRDIFF_MAX_eq] at hc
  rw [SIZE_MAX_eq]
  omega

/-- The byte count of the storage `Emplace` allocates at full capacity does
not wrap when the present block really exists. -/
theorem fits_grown [ElementTraits α] {c : Nat}
    (hc : c * ElementTraits.sizeof α ≤ PTRDIFF_MAX) :
    (if c = 0 then 1 else c * 2) * ElementTraits.sizeof α < SIZE_MAX + 1 := by
  have hs := ElementTraits.sizeof_le (α := α)
  rw [PTRDIFF_MAX_eq] at hc hs
  rw [SIZE_MAX_eq]
  split
  · omega
  · have : c * 2 * ElementTraits.sizeof α = 2 * (c * ElementTraits.sizeof α) := by
      rw [Nat.mul_comm c 2, Nat.mul_assoc]
    omega

/-- A request whose byte count does not wrap obtains a block of `n` cells. -/
theorem RawMemory.cells_ctor_sized [ElementTraits α] (n : Nat)
    (hfit : n * ElementTraits.sizeof α < SIZE_MAX + 1) :
    (RawMemory.ctor_sized n : RawMemory α).cells = List.replicate n Slot.raw := by
  cases n with
  | zero => simp [RawMemory.ctor_sized, RawMemory.Allocate, RawMemory.cells]
  | succ k =>
    simp only [RawMemory.ctor_sized, RawMemory.Allocate, RawMemory.cells, ne_eq,
      Nat.add_one_ne_zero, not_false_eq_true, if_true, Option.getD_some]
    rw [Nat.mod_eq_of_lt hfit, Nat.mul_div_cancel _ ElementTraits.sizeof_pos]

/-- The cells of a block never outnumber the capacity requested. -/
theorem RawMemory.length_cells_ctor_sized_le [ElementTraits α] (n : Nat) :
    (RawMemory.ctor_sized n : RawMemory α).cells.length ≤ n := by
  cases n with
  | zero => simp [RawMemory.ctor_sized, RawMemory.Allocate, RawMemory.cells]
  | succ k =>
    simp only [RawMemory.ctor_sized, RawMemory.Allocate, RawMemory.cells, ne_eq,
      Nat.add_one_ne_zero, not_false_eq_true, if_true, Option.getD_some, List.length_replicate]
    calc (k + 1) * ElementTraits.sizeof α % (SIZE_MAX + 1) / ElementTraits.sizeof α
        ≤ (k + 1) * ElementTraits.sizeof α / ElementTraits.sizeof α :=
          Nat.div_le_div_right (Nat.mod_le _ _)
      _ = k + 1 := Nat.mul_div_cancel _ ElementTraits.sizeof_pos

theorem RawMemory.buffer_ctor_sized [ElementTraits α] (n : Nat) :
    (RawMemory.ctor_sized n : RawMemory α).buffer_ = none ↔ n = 0 := by
  cases n <;> simp [RawMemory.ctor_sized, RawMemory.Allocate]

theorem RawMemory.cells_store (m : RawMemory α) (blk : List (Slot α))
    (h : blk.length = m.cells.length) : (m.store blk).cells = blk := by
  rcases m with ⟨_ | b, cap⟩
  · have : blk = [] := List.length_eq_zero.mp (by simpa [RawMemory.cells] using h)
    simp [RawMemory.store, RawMemory.cells, this]
  · simp [RawMemory.store, RawMemory.cells]

theorem RawMemory.buffer_store (m : RawMemory α) (blk : List (Slot α)) :
    (m.store blk).buffer_ = none ↔ m.buffer_ = none := by
  rcases m with ⟨_ | b, cap⟩ <;> simp [RawMemory.store]

theorem RawMemory.fst_Swap (a b : RawMemory α) : (a.Swap b).1 = b := rfl

theorem RawMemory.snd_Swap (a b : RawMemory α) : (a.Swap b).2 = a := rfl

/-- A vector made of storage `m` rewritten to the block `layout e c`. -/
theorem Vector.holds_store (m : RawMemory α) (blk : List (Slot α)) (e : List α) (c n : Nat)
    (hcap : m.capacity_ = c) (hnull : m.buffer_ = none ↔ c = 0) (hlen : m.cells.length = c)
    (hle : e.length ≤ c) (hblk : blk = Vector.layout e c) (hn : n = e.length) :
    Vector.Holds { data_ := m.store blk, size_ := n } e c where
  size_eq := hn
  capacity_eq := hcap
  size_le := hle
  null_iff := by rw [← hnull]; exact RawMemory.buffer_store m blk
  cells_eq := by
    show (m.store blk).cells = _
    rw [RawMemory.cells_store m blk (by rw [hblk, length_layout e c hle, hlen]), hblk]

/-- A vector made of fresh storage of `c` cells rewritten to `layout e c`. -/
theorem Vector.holds_fresh [ElementTraits α] (blk : List (Slot α)) (e : List α) (c n : Nat)
    (hfit : c * ElementTraits.sizeof α < SIZE_MAX + 1)
    (hle : e.length ≤ c) (hblk : blk = Vector.layout e c) (hn : n = e.length) :
    Vector.Holds { data_ := (RawMemory.ctor_sized c).store blk, size_ := n } e c :=
  Vector.holds_store _ blk e c n rfl (RawMemory.buffer_ctor_sized c)
    (by simp [RawMemory.cells_ctor_sized c hfit]) hle hblk hn

theorem Vector.Holds.length_cells {v : Vector α} {e : List α} {c : Nat} (h : v.Holds e c) :
    v.data_.cells.length = c := by
  rw [h.cells_eq, length_layout e c h.size_le]

theorem Vector.Holds.Size {v : Vector α} {e : List α} {c : Nat} (h : v.Holds e c) :
    v.Size = e.length := h.size_eq

theorem Vector.Holds.Capacity {v : Vector α} {e : List α} {c : Nat} (h : v.Holds e c) :
    v.Capacity = c := h.capacity_eq

theorem Vector.Holds.elements {v : Vector α} {e : List α} {c : Nat} (h : v.Holds e c) :
    v.elements = e.map Slot.obj := by
  simp [Vector.elements, h.cells_eq, h.size_eq, Vector.layout]

theorem Vector.Holds.get {v : Vector α} {e : List α} {c : Nat} (h : v.Holds e c) (i : Nat)
    (hi : i < e.length) : v.get i = Slot.obj (e.get ⟨i, hi⟩) := by
  simp [Vector.get, RawMemory.get, h.cells_eq, Vector.layout, List.getD_eq_getElem?_getD,
    List.getElem?_append_left, hi]

theorem Vector.Holds.eq_of_elements {v : Vector α} {e e' : List α} {c : Nat} (h : v.Holds e c)
    (he : v.elements = e'.map Slot.obj) : e = e' := by
  rw [h.elements] at he
  exact List.map_injective_iff.mpr (fun a b hab => Slot.obj.inj hab) he

theorem Vector.Holds.wf [ElementTraits α] {v : Vector α} {e : List α} {c : Nat}
    (h : v.Holds e c) (hfit : c * ElementTraits.sizeof α ≤ PTRDIFF_MAX) : v.WF := by
  refine ⟨⟨?_, ?_, ?_⟩, ?_, ?_, ?_⟩
  · rw [h.length_cells, h.capacity_eq]
  · rw [h.capacity_eq, ← h.null_iff]; simp [Option.isNone_iff_eq_none]
  · rw [h.capacity_eq]; exact hfit
  · rw [h.capacity_eq, h.size_eq]; exact h.size_le
  · intro s hs
    have : v.data_.cells.take v.size_ = e.map Slot.obj := h.elements
    rw [this] at hs
    obtain ⟨a, _, rfl⟩ := List.mem_map.mp hs
    rfl
  · intro s hs
    rw [h.cells_eq, h.size_eq] at hs
    simp [Vector.layout] at hs
    rw [hs.2]; rfl

/-- The values of a list of cells that are all live objects. -/
theorem exists_values (L : List (Slot α)) (h : ∀ s ∈ L, s.isObj = true) :
    ∃ e : List α, L = e.map Slot.obj := by
  induction L with
  | nil => exact ⟨[], rfl⟩
  | cons s L ih =>
    obtain ⟨e, he⟩ := ih (fun t ht => h t (List.mem_cons_of_mem _ ht))
    cases s with
    | obj a => exact ⟨a :: e, by simp [he]⟩
    | raw => simpa [Slot.isObj] using h Slot.raw (List.mem_cons_self _ _)
    | husk => simpa [Slot.isObj] using h Slot.husk (List.mem_cons_self _ _)

theorem eq_replicate_raw (L : List (Slot α)) (h : ∀ s ∈ L, s.isRaw = true) :
    L = List.replicate L.length Slot.raw := by
  induction L with
  | nil => rfl
  | cons s L ih =>
    have hs := h s (List.mem_cons_self _ _)
    cases s with
    | raw =>
      rw [List.length_cons, List.replicate_succ]
      congr 1
      exact ih (fun t ht => h t (List.mem_cons_of_mem _ ht))
    | obj a => simp [Slot.isRaw] at hs
    | husk => simp [Slot.isRaw] at hs

/-- Every well-formed vector holds some list of values. -/
theorem Vector.WF.holds [ElementTraits α] {v : Vector α} (h : v.WF) :
    ∃ e, v.Holds e v.Capacity := by
  obtain ⟨⟨hlen, hnull, _⟩, hle, hobj, hraw⟩ := h
  obtain ⟨e, he⟩ := exists_values _ hobj
  have hel : e.length = v.size_ := by
    have := congrArg List.length he
    simp at this
    omega
  refine ⟨e, ⟨hel.symm, rfl, ?_, ?_, ?_⟩⟩
  · rw [hel]; exact hle
  · show v.data_.buffer_ = none ↔ v.data_.capacity_ = 0
    rw [← hnull]; simp [Option.isNone_iff_eq_none]
  · have h1 := eq_replicate_raw _ hraw
    rw [← List.take_append_drop v.size_ v.data_.cells, h1, he]
    simp [Vector.layout, Vector.Capacity, RawMemory.Capacity, hel, hlen]

/-- The block of a well-formed vector is at most `PTRDIFF_MAX` bytes. -/
theorem Vector.WF.fits [ElementTraits α] {v : Vector α} (h : v.WF) :
    v.Capacity * ElementTraits.sizeof α ≤ PTRDIFF_MAX :=
  h.1.2.2

end StorageFacts

section OperationFacts
variable {α : Type}

theorem Vector.holds_ctor_default : (Vector.ctor_default : Vector α).Holds [] 0 :=
  ⟨rfl, rfl, Nat.le_refl _, by simp [Vector.ctor_default], rfl⟩

theorem Vector.holds_ctor_sized [Inhabited α] [ElementTraits α] (n : Nat)
    (hfit : n * ElementTraits.sizeof α < SIZE_MAX + 1) :
    (Vector.ctor_sized n : Vector α).Holds (List.replicate n default) n := by
  unfold Vector.ctor_sized
  exact Vector.holds_fresh _ _ n n hfit (by simp)
    (by rw [RawMemory.cells_ctor_sized n hfit, block_value_construct]) (by simp)

theorem Vector.Holds.ctor_copy [ElementTraits α] {o : Vector α} {e : List α} {c : Nat}
    (h : o.Holds e c) (hfit : e.length * ElementTraits.sizeof α < SIZE_MAX + 1) :
    (Vector.ctor_copy o).Holds e e.length := by
  unfold Vector.ctor_copy
  rw [h.size_eq]
  exact Vector.holds_fresh _ _ _ _ hfit (Nat.le_refl _)
    (by rw [RawMemory.cells_ctor_sized _ hfit, h.cells_eq,
      block_copy e c _ _ rfl (Nat.le_refl _)]) rfl

theorem Vector.Holds.Swap_target {a b : Vector α} {eb : List α} {cb : Nat} (hb : b.Holds eb cb) :
    (a.Swap b).1.Holds eb cb :=
  ⟨hb.size_eq, hb.capacity_eq, hb.size_le, hb.null_iff, hb.cells_eq⟩

theorem Vector.Holds.Swap_source {a b : Vector α} {ea : List α} {ca : Nat} (ha : a.Holds ea ca) :
    (a.Swap b).2.Holds ea ca :=
  ⟨ha.size_eq, ha.capacity_eq, ha.size_le, ha.null_iff, ha.cells_eq⟩

theorem Vector.Holds.Emplace [ElementTraits α] {v : Vector α} {e : List α} {c : Nat}
    (h : v.Holds e c) (p : Nat) (x : α) (hp : p ≤ e.length)
    (hfit : e.length = c → c * ElementTraits.sizeof α ≤ PTRDIFF_MAX) :
    (v.Emplace p x).1.Holds (e.take p ++ x :: e.drop p)
        (if e.length = c then (if c = 0 then 1 else c * 2) else c)
      ∧ (v.Emplace p x).2 = p := by
  have hs := h.size_eq
  have hcap : v.Capacity = c := h.capacity_eq
  have hle := h.size_le
  unfold Vector.Emplace
  simp only [hs, hcap, h.cells_eq, RawMemory.fst_Swap]
  by_cases h1 : e.length = p
  · subst h1
    by_cases h2 : e.length = c
    · subst h2
      rw [if_pos rfl, if_pos rfl, if_pos rfl]
      refine ⟨?_, rfl⟩
      have hct : (if e.length = 0 then 0 + 1 else 0 + e.length * 2)
          = (if e.length = 0 then 1 else e.length * 2) := by
        split <;> omega
      have hlt : e.length < (if e.length = 0 then 1 else e.length * 2) := by
        split <;> omega
      have hgrown := fits_grown (hfit rfl)
      rw [hct, RawMemory.cells_ctor_sized _ hgrown]
      refine Vector.holds_fresh _ _ _ _ hgrown (by simp; omega) ?_ (by simp)
      rw [block_append_realloc e x _ _ _ rfl hlt]
      simp
    · rw [if_pos rfl, if_neg h2, if_neg h2]
      refine ⟨?_, rfl⟩
      refine Vector.holds_store _ _ _ _ _ h.capacity_eq h.null_iff h.length_cells
        (by simp; omega) ?_ (by simp)
      rw [block_append_spare e x c _ rfl (by omega)]
      simp
  · have hpn : p < e.length := by omega
    obtain ⟨E1, E2, rfl, rfl⟩ : ∃ E1 E2, e = E1 ++ E2 ∧ p = E1.length :=
      ⟨e.take p, e.drop p, (List.take_append_drop p e).symm, by simp; omega⟩
    have htd : (E1 ++ E2).take E1.length ++ x :: (E1 ++ E2).drop E1.length = E1 ++ x :: E2 := by
      simp
    rw [htd, if_neg h1]
    by_cases h2 : (E1 ++ E2).length < c
    · have hne : (E1 ++ E2).length ≠ c := by omega
      rw [if_pos h2, if_neg hne]
      refine ⟨?_, rfl⟩
      obtain ⟨E2', l, rfl⟩ : ∃ E2' l, E2 = E2' ++ [l] := by
        rcases List.eq_nil_or_concat E2 with h0 | ⟨E2', l, h0⟩
        · subst h0; simp at hpn
        · exact ⟨E2', l, by simpa using h0⟩
      refine Vector.holds_store _ _ _ _ _ h.capacity_eq h.null_iff h.length_cells
        (by simp at h2 ⊢; omega) ?_ (by simp; omega)
      have := block_insert_spare E1 E2' l x c E1.length (E1 ++ (E2' ++ [l])).length rfl
        (by simp; omega) h2
      simpa using this
    · have heq : (E1 ++ E2).length = c := by omega
      subst heq
      have hne : (E1 ++ E2).length ≠ 0 := by omega
      have hgrown := fits_grown (hfit rfl)
      rw [if_neg hne] at hgrown
      rw [if_neg h2, if_pos rfl, if_neg hne, RawMemory.cells_ctor_sized _ hgrown]
      refine ⟨?_, rfl⟩
      refine Vector.holds_fresh _ _ _ _ hgrown (by simp at hpn ⊢; omega) ?_ (by simp; omega)
      exact block_insert_realloc E1 E2 x _ _ E1.length (E1 ++ E2).length rfl (by simp)
        (by simp at hpn ⊢; omega)

theorem Vector.Holds.Insert [ElementTraits α] {v : Vector α} {e : List α} {c : Nat}
    (h : v.Holds e c) (p : Nat) (x : α) (hp : p ≤ e.length)
    (hfit : e.length = c → c * ElementTraits.sizeof α ≤ PTRDIFF_MAX) :
    (v.Insert p x).1.Holds (e.take p ++ x :: e.drop p)
        (if e.length = c then (if c = 0 then 1 else c * 2) else c)
      ∧ (v.Insert p x).2 = p :=
  h.Emplace p x hp hfit

theorem Vector.Holds.EmplaceBack [ElementTraits α] {v : Vector α} {e : List α} {c : Nat}
    (h : v.Holds e c) (x : α)
    (hfit : e.length = c → c * ElementTraits.sizeof α ≤ PTRDIFF_MAX) :
    (v.EmplaceBack x).1.Holds (e ++ [x])
        (if e.length = c then (if c = 0 then 1 else c * 2) else c) := by
  have := (h.Emplace e.length x (Nat.le_refl _) hfit).1
  simp only [List.take_length, List.drop_length] at this
  unfold Vector.EmplaceBack
  rw [h.size_eq]
  exact this

theorem Vector.Holds.PushBack [ElementTraits α] {v : Vector α} {e : List α} {c : Nat}
    (h : v.Holds e c) (x : α)
    (hfit : e.length = c → c * ElementTraits.sizeof α ≤ PTRDIFF_MAX) :
    (v.PushBack x).Holds (e ++ [x])
        (if e.length = c then (if c = 0 then 1 else c * 2) else c) :=
  h.EmplaceBack x hfit

theorem Vector.Holds.Erase {v : Vector α} {e : List α} {c : Nat}
    (h : v.Holds e c) (p : Nat) (hp : p < e.length) :
    (v.Erase p).1.Holds (e.take p ++ e.drop (p + 1)) c ∧ (v.Erase p).2 = p := by
  refine ⟨?_, rfl⟩
  obtain ⟨E1, t, E2, rfl, rfl⟩ : ∃ E1 t E2, e = E1 ++ t :: E2 ∧ p = E1.length := by
    refine ⟨e.take p, e.get ⟨p, hp⟩, e.drop (p + 1), ?_, by simp; omega⟩
    rw [List.get_eq_getElem, List.getElem_cons_drop, List.take_append_drop]
  have htd : (E1 ++ t :: E2).take E1.length ++ (E1 ++ t :: E2).drop (E1.length + 1) = E1 ++ E2 := by
    simp
  have hle := h.size_le
  rw [htd]
  unfold Vector.Erase
  simp only [h.size_eq, h.cells_eq]
  refine Vector.holds_store _ _ _ _ _ h.capacity_eq h.null_iff h.length_cells
    (by simp at hle ⊢; omega) ?_ (by simp)
  exact block_erase E1 E2 t c _ _ rfl (by simp; omega) hle

theorem Vector.Holds.PopBack {v : Vector α} {e : List α} {c : Nat}
    (h : v.Holds e c) (hne : 0 < e.length) : v.PopBack.Holds e.dropLast c := by
  obtain ⟨E, l, rfl⟩ : ∃ E l, e = E ++ [l] := by
    rcases List.eq_nil_or_concat e with h0 | ⟨E, l, h0⟩
    · subst h0; simp at hne
    · exact ⟨E, l, by simpa using h0⟩
  have hle := h.size_le
  unfold Vector.PopBack
  simp only [h.size_eq, h.cells_eq, List.dropLast_concat]
  refine Vector.holds_store _ _ _ _ _ h.capacity_eq h.null_iff h.length_cells
    (by simp at hle; omega) ?_ (by simp)
  exact block_pop_back E l c _ (by simp) hle

theorem Vector.Holds.Reserve [ElementTraits α] {v : Vector α} {e : List α} {c : Nat}
    (h : v.Holds e c) (n : Nat)
    (hfit : c < n → n * ElementTraits.sizeof α < SIZE_MAX + 1) :
    (v.Reserve n).Holds e (if n ≤ c then c else n) := by
  have hcap : v.data_.Capacity = c := h.capacity_eq
  have hle := h.size_le
  unfold Vector.Reserve
  rw [hcap]
  by_cases hn : n ≤ c
  · rw [if_pos hn, if_pos hn]; exact h
  · rw [if_neg hn, if_neg hn]
    have hfit2 := hfit (by omega)
    simp only [RawMemory.fst_Swap, h.size_eq, h.cells_eq, RawMemory.cells_ctor_sized n hfit2]
    refine Vector.holds_fresh _ _ _ _ hfit2 (by omega) ?_ rfl
    split
    · rw [uninitialized_move_n_snd]
      exact block_copy e c n _ rfl (by omega)
    · exact block_copy e c n _ rfl (by omega)

theorem Vector.Holds.Resize [Inhabited α] [ElementTraits α] {v : Vector α} {e : List α}
    {c : Nat} (h : v.Holds e c) (n : Nat)
    (hfit : c < n → n * ElementTraits.sizeof α < SIZE_MAX + 1) :
    (v.Resize n).Holds (e.take n ++ List.replicate (n - e.length) default)
      (if n ≤ c then c else n) := by
  have hle := h.size_le
  unfold Vector.Resize
  rw [h.size_eq]
  by_cases h1 : e.length < n
  · rw [if_pos h1]
    have hr := h.Reserve n hfit
    have hrs : (v.Reserve n).Size = e.length := hr.size_eq
    show Vector.Holds { data_ := (v.Reserve n).data_.store (uninitialized_value_construct_n
      (v.Reserve n).data_.cells (v.Reserve n).Size (n - (v.Reserve n).Size)), size_ := n } _ _
    rw [hrs, hr.cells_eq, List.take_of_length_le (by omega)]
    refine Vector.holds_store _ _ _ _ _ hr.capacity_eq hr.null_iff hr.length_cells
      (by simp; split <;> omega) ?_ (by simp; omega)
    exact block_resize_grow e _ n _ rfl (by omega) (by split <;> omega)
  · rw [if_neg h1]
    have hnc : n ≤ c := by omega
    rw [if_pos hnc]
    by_cases h2 : e.length > n
    · rw [if_pos h2]
      have hz : n - e.length = 0 := by omega
      have hs : v.Size = e.length := h.size_eq
      rw [hz, List.replicate_zero, List.append_nil, hs, h.cells_eq]
      refine Vector.holds_store _ _ _ _ _ h.capacity_eq h.null_iff h.length_cells
        (by simp; omega) ?_ (by simp; omega)
      exact block_resize_shrink e c n _ rfl (by omega) hle
    · rw [if_neg h2]
      have hn : n = e.length := by omega
      subst hn
      simp only [List.take_length, Nat.sub_self, List.replicate_zero, List.append_nil]
      exact ⟨rfl, h.capacity_eq, h.size_le, h.null_iff, h.cells_eq⟩

/-- Copy assignment inside the existing storage. -/
theorem block_assign_copy (ea eb : List α) (ca cb : Nat) (ha : ea.length ≤ ca)
    (hb : eb.length ≤ ca) :
    (if ea.length < eb.length then
        uninitialized_copy_n (Vector.layout eb cb) ea.length (eb.length - ea.length)
          (copy_assign_loop (Vector.layout eb cb) (Vector.layout ea ca) 0
            (min ea.length eb.length)) ea.length
      else if ea.length > eb.length then
        destroy_n (copy_assign_loop (Vector.layout eb cb) (Vector.layout ea ca) 0
          (min ea.length eb.length)) eb.length (ea.length - eb.length)
      else copy_assign_loop (Vector.layout eb cb) (Vector.layout ea ca) 0
        (min ea.length eb.length))
      = Vector.layout eb ca := by
  have hloop : copy_assign_loop (Vector.layout eb cb) (Vector.layout ea ca) 0
        (min ea.length eb.length)
      = (eb.take (min ea.length eb.length)).map Slot.obj
        ++ ((ea.drop (min ea.length eb.length)).map Slot.obj
            ++ List.replicate (ca - ea.length) Slot.raw) := by
    have hsrc : Vector.layout eb cb
        = [] ++ (eb.take (min ea.length eb.length)).map Slot.obj
          ++ ((eb.drop (min ea.length eb.length)).map Slot.obj
            ++ List.replicate (cb - eb.length) Slot.raw) := by
      rw [List.nil_append, ← List.append_assoc, ← List.map_append, List.take_append_drop]
      rfl
    have hdst : Vector.layout ea ca
        = [] ++ (ea.take (min ea.length eb.length)).map Slot.obj
          ++ ((ea.drop (min ea.length eb.length)).map Slot.obj
            ++ List.replicate (ca - ea.length) Slot.raw) := by
      rw [List.nil_append, ← List.append_assoc, ← List.map_append, List.take_append_drop]
      rfl
    rw [copy_assign_loop_eq, hsrc, hdst]
    rw [uninitialized_copy_n_shape [] _ _ [] _ _ 0 _ 0 rfl (by simp) rfl (by simp)]
    simp
  rw [hloop]
  by_cases h1 : ea.length < eb.length
  · rw [if_pos h1]
    have hmin : min ea.length eb.length = ea.length := by omega
    rw [hmin, List.drop_length, List.map_nil, List.nil_append]
    have hsrc : Vector.layout eb cb
        = (eb.take ea.length).map Slot.obj ++ (eb.drop ea.length).map Slot.obj
          ++ List.replicate (cb - eb.length) Slot.raw := by
      rw [← List.map_append, List.take_append_drop]
      rfl
    have hdst : (eb.take ea.length).map Slot.obj ++ List.replicate (ca - ea.length) Slot.raw
        = (eb.take ea.length).map Slot.obj ++ List.replicate (eb.length - ea.length) Slot.raw
          ++ List.replicate (ca - eb.length) Slot.raw := by
      rw [replicate_split (Slot.raw : Slot α) (ca - ea.length) (eb.length - ea.length)
        (ca - eb.length) (by omega)]
      simp
    rw [hdst, hsrc]
    rw [uninitialized_copy_n_shape _ _ _ _ _ _ _ _ _ (by simp; omega) (by simp) (by simp; omega)
      (by simp)]
    rw [← List.map_append, List.take_append_drop]
    rfl
  · rw [if_neg h1]
    have hmin : min ea.length eb.length = eb.length := by omega
    rw [hmin, List.take_length]
    by_cases h2 : ea.length > eb.length
    · rw [if_pos h2]
      have := destroy_n_shape (eb.map Slot.obj) ((ea.drop eb.length).map Slot.obj)
        (List.replicate (ca - ea.length) Slot.raw) eb.length (ea.length - eb.length)
        (by simp) (by simp)
      rw [← List.append_assoc, this]
      rw [List.append_assoc, List.append_replicate_replicate]
      simp only [Vector.layout]
      congr 2
      omega
    · rw [if_neg h2]
      have : ea.length = eb.length := by omega
      rw [List.drop_of_length_le (by omega), this]
      rfl

theorem Vector.Holds.assign_copy [ElementTraits α] {a b : Vector α} {ea eb : List α}
    {ca cb : Nat} (ha : a.Holds ea ca) (hb : b.Holds eb cb)
    (hfit : eb.length * ElementTraits.sizeof α < SIZE_MAX + 1) :
    (a.assign_copy b).Holds eb (if eb.length > ca then eb.length else ca) := by
  have hcap : a.data_.Capacity = ca := ha.capacity_eq
  have hsb : b.Size = eb.length := hb.size_eq
  have hsa : a.Size = ea.length := ha.size_eq
  unfold Vector.assign_copy
  rw [hcap, hsb, hsa]
  by_cases h1 : eb.length > ca
  · rw [if_pos h1, if_pos h1]
    exact (hb.ctor_copy hfit).Swap_target
  · rw [if_neg h1, if_neg h1]
    simp only [ha.cells_eq, hb.cells_eq]
    refine Vector.holds_store _ _ _ _ _ ha.capacity_eq ha.null_iff ha.length_cells
      (by omega) ?_ rfl
    exact block_assign_copy ea eb ca cb ha.size_le (by omega)

theorem Vector.holds_ctor_move_snd (o : Vector α) : (Vector.ctor_move o).2.Holds [] 0 :=
  Vector.holds_ctor_default.Swap_source

end OperationFacts

section CounterFacts
variable {α : Type}

theorem Vector.size_Emplace [ElementTraits α] (v : Vector α) (p : Nat) (x : α) :
    (v.Emplace p x).1.Size = v.Size + 1 := by
  unfold Vector.Emplace
  by_cases h1 : v.size_ = p
  · by_cases h2 : v.size_ = v.Capacity
    · simp only [if_pos h1, if_pos h2]; rfl
    · simp only [if_pos h1, if_neg h2]; rfl
  · by_cases h3 : v.size_ < v.Capacity
    · simp only [if_neg h1, if_pos h3]; rfl
    · simp only [if_neg h1, if_neg h3]; rfl

/-- The capacity counter after `Emplace` at a valid position. -/
theorem Vector.capacity_Emplace [ElementTraits α] (v : Vector α) (p : Nat) (x : α)
    (hp : p ≤ v.Size) (hle : v.Size ≤ v.Capacity) :
    (v.Emplace p x).1.Capacity
      = if v.Size = v.Capacity then (if v.Capacity = 0 then 1 else v.Capacity * 2)
        else v.Capacity := by
  have hp2 : p ≤ v.size_ := hp
  have hle2 : v.size_ ≤ v.Capacity := hle
  have hS : v.Size = v.size_ := rfl
  unfold Vector.Emplace
  rw [hS]
  by_cases h1 : v.size_ = p
  · by_cases h2 : v.size_ = v.Capacity
    · simp only [if_pos h1, if_pos h2]
      show (if v.size_ = 0 then 0 + 1 else 0 + v.size_ * 2) = _
      rw [← h2]
      split <;> omega
    · simp only [if_pos h1, if_neg h2]; rfl
  · by_cases h3 : v.size_ < v.Capacity
    · have h2 : v.size_ ≠ v.Capacity := by omega
      simp only [if_neg h1, if_pos h3, if_neg h2]; rfl
    · have h2 : v.size_ = v.Capacity := by omega
      simp only [if_neg h1, if_neg h3, if_pos h2]
      show v.size_ * 2 = _
      rw [← h2, if_neg (by omega)]

theorem Vector.size_Erase (v : Vector α) (p : Nat) : (v.Erase p).1.Size = v.Size - 1 := rfl

theorem Vector.capacity_Erase (v : Vector α) (p : Nat) :
    (v.Erase p).1.Capacity = v.Capacity := rfl

theorem Vector.size_PopBack (v : Vector α) : v.PopBack.Size = v.Size - 1 := rfl

theorem Vector.capacity_PopBack (v : Vector α) : v.PopBack.Capacity = v.Capacity := rfl

theorem Vector.size_Reserve [ElementTraits α] (v : Vector α) (n : Nat) :
    (v.Reserve n).Size = v.Size := by
  unfold Vector.Reserve
  split <;> rfl

theorem Vector.capacity_Reserve [ElementTraits α] (v : Vector α) (n : Nat) :
    (v.Reserve n).Capacity = if n ≤ v.Capacity then v.Capacity else n := by
  have hC : v.data_.Capacity = v.Capacity := rfl
  unfold Vector.Reserve
  rw [hC]
  split <;> rfl

theorem Vector.size_Resize [Inhabited α] [ElementTraits α] (v : Vector α) (n : Nat) :
    (v.Resize n).Size = n := by
  unfold Vector.Resize
  split
  · rfl
  · split <;> rfl

theorem Vector.capacity_Resize [Inhabited α] [ElementTraits α] (v : Vector α) (n : Nat) :
    (v.Resize n).Capacity
      = if v.Size < n then (if n ≤ v.Capacity then v.Capacity else n) else v.Capacity := by
  have hS : v.Size = v.size_ := rfl
  unfold Vector.Resize
  rw [hS]
  split
  · exact Vector.capacity_Reserve v n
  · split <;> rfl

theorem Vector.capacity_Resize_of_le [Inhabited α] [ElementTraits α] (v : Vector α) (n : Nat)
    (hle : v.Size ≤ v.Capacity) :
    (v.Resize n).Capacity = if n ≤ v.Capacity then v.Capacity else n := by
  rw [Vector.capacity_Resize]
  split
  · rfl
  · rw [if_pos (by omega)]

theorem Vector.size_ctor_copy [ElementTraits α] (o : Vector α) :
    (Vector.ctor_copy o).Size = o.Size := rfl

theorem Vector.capacity_ctor_copy [ElementTraits α] (o : Vector α) :
    (Vector.ctor_copy o).Capacity = o.Size := rfl

theorem Vector.size_assign_copy [ElementTraits α] (v o : Vector α) :
    (v.assign_copy o).Size = o.Size := by
  unfold Vector.assign_copy
  split <;> rfl

theorem Vector.capacity_assign_copy [ElementTraits α] (v o : Vector α) :
    (v.assign_copy o).Capacity = if o.Size > v.Capacity then o.Size else v.Capacity := by
  have hC : v.data_.Capacity = v.Capacity := rfl
  unfold Vector.assign_copy
  rw [hC]
  split <;> rfl

/-- Every reachable vector has `size_ <= capacity_`. -/
theorem Reachable.size_le [Inhabited α] [ElementTraits α] {v : Vector α} (h : Reachable v) :
    v.Size ≤ v.Capacity := by
  induction h with
  | ctor_default => exact Nat.le_refl _
  | ctor_sized size => exact Nat.le_refl _
  | ctor_copy _ _ => exact Nat.le_refl _
  | ctor_move _ ih => exact ih
  | ctor_move_source _ _ => exact Nat.le_refl _
  | @Emplace v pos x _ hpos ih =>
    rw [Vector.size_Emplace, Vector.capacity_Emplace v pos x hpos ih]
    split
    · split <;> omega
    · omega
  | @Insert v pos x _ hpos ih =>
    show (v.Emplace pos x).1.Size ≤ (v.Emplace pos x).1.Capacity
    rw [Vector.size_Emplace, Vector.capacity_Emplace v pos x hpos ih]
    split
    · split <;> omega
    · omega
  | @Erase v pos _ _ ih =>
    rw [Vector.size_Erase, Vector.capacity_Erase]; omega
  | @Resize v n _ ih =>
    rw [Vector.size_Resize, Vector.capacity_Resize]
    split
    · split <;> omega
    · omega
  | @EmplaceBack v x _ ih =>
    show (v.Emplace v.size_ x).1.Size ≤ (v.Emplace v.size_ x).1.Capacity
    rw [Vector.size_Emplace, Vector.capacity_Emplace v v.size_ x (Nat.le_refl _) ih]
    split
    · split <;> omega
    · omega
  | @PushBack v x _ ih =>
    show (v.Emplace v.size_ x).1.Size ≤ (v.Emplace v.size_ x).1.Capacity
    rw [Vector.size_Emplace, Vector.capacity_Emplace v v.size_ x (Nat.le_refl _) ih]
    split
    · split <;> omega
    · omega
  | @PopBack v _ _ ih =>
    rw [Vector.size_PopBack, Vector.capacity_PopBack]; omega
  | @Reserve v n _ ih =>
    rw [Vector.size_Reserve, Vector.capacity_Reserve]
    split <;> omega
  | Swap _ _ _ ih2 => exact ih2
  | Swap_other _ _ ih1 _ => exact ih1
  | @assign_copy v o _ _ _ _ =>
    rw [Vector.size_assign_copy, Vector.capacity_assign_copy]
    split <;> omega
  | assign_move _ _ _ ih2 => exact ih2
  | assign_move_source _ _ ih1 _ => exact ih1

/-- The counters after a run of appends: from size zero and capacity zero, or
from a capacity `c` that is a power of two with `c / 2 < size <= c`, the
same holds afterwards, and the size has grown by the number of appends. -/
theorem Vector.push_backs_counters [ElementTraits α] (v : Vector α) (xs : List α)
    (hc : (v.Size = 0 ∧ v.Capacity = 0)
      ∨ ∃ j, v.Capacity = 2 ^ j ∧ v.Size ≤ 2 ^ j ∧ 2 ^ j < 2 * v.Size) :
    (v.push_backs xs).Size = v.Size + xs.length
      ∧ (((v.push_backs xs).Size = 0 ∧ (v.push_backs xs).Capacity = 0)
        ∨ ∃ j, (v.push_backs xs).Capacity = 2 ^ j ∧ (v.push_backs xs).Size ≤ 2 ^ j
          ∧ 2 ^ j < 2 * (v.push_backs xs).Size) := by
  induction xs generalizing v with
  | nil => exact ⟨rfl, hc⟩
  | cons x xs ih =>
    have hle : v.Size ≤ v.Capacity := by
      rcases hc with ⟨h0, _⟩ | ⟨j, hj, hle, _⟩
      · omega
      · omega
    have hsz : (v.PushBack x).Size = v.Size + 1 := Vector.size_Emplace v v.size_ x
    have hcp : (v.PushBack x).Capacity
        = if v.Size = v.Capacity then (if v.Capacity = 0 then 1 else v.Capacity * 2)
          else v.Capacity :=
      Vector.capacity_Emplace v v.size_ x (Nat.le_refl _) hle
    have hstep : ((v.PushBack x).Size = 0 ∧ (v.PushBack x).Capacity = 0)
        ∨ ∃ j, (v.PushBack x).Capacity = 2 ^ j ∧ (v.PushBack x).Size ≤ 2 ^ j
          ∧ 2 ^ j < 2 * (v.PushBack x).Size := by
      right
      rw [hsz, hcp]
      rcases hc with ⟨h0, hc0⟩ | ⟨j, hj, hle2, hlt⟩
      · refine ⟨0, ?_, ?_, ?_⟩
        · rw [if_pos (by omega), if_pos hc0]; rfl
        · simp [h0]
        · simp [h0]
      · by_cases hfull : v.Size = v.Capacity
        · refine ⟨j + 1, ?_, ?_, ?_⟩
          · have hpos : v.Capacity ≠ 0 := by
              rw [hj]; exact Nat.pos_iff_ne_zero.mp (Nat.two_pow_pos j)
            rw [if_pos hfull, if_neg hpos, hj, Nat.pow_succ]
          · rw [Nat.pow_succ]; omega
          · rw [Nat.pow_succ]; omega
        · refine ⟨j, ?_, ?_, ?_⟩
          · rw [if_neg hfull, hj]
          · omega
          · omega
    obtain ⟨h1, h2⟩ := ih (v.PushBack x) hstep
    have hfold : v.push_backs (x :: xs) = (v.PushBack x).push_backs xs := rfl
    rw [hfold]
    refine ⟨?_, h2⟩
    rw [h1, hsz, List.length_cons]
    omega

end CounterFacts

section Claims
variable {α : Type}

/-- A well-formed vector whose live range reads `e` holds `e`. -/
theorem Vector.WF.holds_of_elements [ElementTraits α] {v : Vector α} {e : List α}
    (h : v.WF) (he : v.elements = e.map Slot.obj) : v.Holds e v.Capacity := by
  obtain ⟨e', h'⟩ := h.holds
  rw [← h'.eq_of_elements he]
  exact h'

/-- C1: every vector reachable from a constructor (default, sized, copy,
move) by calls of Emplace, Insert, Erase, Resize, EmplaceBack, PushBack,
PopBack, Reserve, Swap, copy assignment and move assignment, each within its
precondition, satisfies `Size() <= Capacity()`. -/
theorem C1_size_le_capacity [Inhabited α] [ElementTraits α] (v : Vector α)
    (h : Reachable v) : v.Size ≤ v.Capacity :=
  h.size_le

/-- C1 at a vector built by a sized construction, an insertion at the front,
an erasure and a reservation. -/
theorem C1_size_le_capacity_witness :
    Reachable ((((Vector.ctor_sized 2 : Vector Nat).Insert 0 5).1.Erase 1).1.Reserve 9)
      ∧ ((((Vector.ctor_sized 2 : Vector Nat).Insert 0 5).1.Erase 1).1.Reserve 9).Size
        ≤ ((((Vector.ctor_sized 2 : Vector Nat).Insert 0 5).1.Erase 1).1.Reserve 9).Capacity :=
  have hr : Reachable ((((Vector.ctor_sized 2 : Vector Nat).Insert 0 5).1.Erase 1).1.Reserve 9) :=
    Reachable.Reserve 9
      (Reachable.Erase 1 (Reachable.Insert 0 5 (Reachable.ctor_sized 2) (by decide)) (by decide))
  ⟨hr, C1_size_le_capacity _ hr⟩

/-- C2: on a vector with elements `e` and a position `p <= e.length`,
`Insert(p, x)`, which is `Emplace` at `p` constructing `x`, yields a vector of
size `e.length + 1` whose elements are `e[0..p)`, `x`, `e[p..n)` in that
order. -/
theorem C2_insert_elements [ElementTraits α] (v : Vector α) (e : List α) (p : Nat) (x : α)
    (hwf : v.WF) (he : v.elements = e.map Slot.obj) (hp : p ≤ e.length) :
    v.Insert p x = v.Emplace p x
      ∧ (v.Insert p x).1.Size = e.length + 1
      ∧ (v.Insert p x).1.elements = (e.take p ++ x :: e.drop p).map Slot.obj := by
  have h := ((hwf.holds_of_elements he).Insert p x hp (fun _ => hwf.fits)).1
  refine ⟨rfl, ?_, h.elements⟩
  rw [h.Size]
  simp
  omega

/-- C2 on the four paths of `Emplace`: append with spare capacity, append at
full capacity, middle insertion with spare capacity, middle insertion at full
capacity. -/
theorem C2_insert_elements_witness :
    (Vector.Insert ⟨⟨some [Slot.obj 1, Slot.raw], 2⟩, 1⟩ 1 7).1.elements
        = [Slot.obj 1, Slot.obj 7]
      ∧ (Vector.Insert ⟨⟨some [Slot.obj 1], 1⟩, 1⟩ 1 7).1.elements = [Slot.obj 1, Slot.obj 7]
      ∧ (Vector.Insert ⟨⟨some [Slot.obj 1, Slot.obj 2, Slot.raw], 3⟩, 2⟩ 0 7).1.elements
        = [Slot.obj 7, Slot.obj 1, Slot.obj 2]
      ∧ (Vector.Insert ⟨⟨some [Slot.obj 1, Slot.obj 2], 2⟩, 2⟩ 1 7).1.elements
        = [Slot.obj 1, Slot.obj 7, Slot.obj 2] :=
  ⟨(C2_insert_elements ⟨⟨some [Slot.obj 1, Slot.raw], 2⟩, 1⟩ [1] 1 7
      (by decide) (by decide) (by decide)).2.2,
    (C2_insert_elements ⟨⟨some [Slot.obj 1], 1⟩, 1⟩ [1] 1 7
      (by decide) (by decide) (by decide)).2.2,
    (C2_insert_elements ⟨⟨some [Slot.obj 1, Slot.obj 2, Slot.raw], 3⟩, 2⟩ [1, 2] 0 7
      (by decide) (by decide) (by decide)).2.2,
    (C2_insert_elements ⟨⟨some [Slot.obj 1, Slot.obj 2], 2⟩, 2⟩ [1, 2] 1 7
      (by decide) (by decide) (by decide)).2.2⟩

/-- C3: on a vector with elements `e` and a position `p < e.length`,
`Erase(p)` yields a vector of size `e.length - 1` whose elements are `e[0..p)`
followed by `e[p+1..n)` in that order, with the capacity unchanged. -/
theorem C3_erase_elements [ElementTraits α] (v : Vector α) (e : List α) (p : Nat)
    (hwf : v.WF) (he : v.elements = e.map Slot.obj) (hp : p < e.length) :
    (v.Erase p).1.Size = e.length - 1
      ∧ (v.Erase p).1.elements = (e.take p ++ e.drop (p + 1)).map Slot.obj
      ∧ (v.Erase p).1.Capacity = v.Capacity := by
  have h := ((hwf.holds_of_elements he).Erase p hp).1
  refine ⟨?_, h.elements, h.Capacity⟩
  rw [h.Size]
  simp
  omega

/-- C3 at the front, in the middle and at the back of a three-element vector
of capacity four. -/
theorem C3_erase_elements_witness :
    (Vector.Erase ⟨⟨some [Slot.obj 1, Slot.obj 2, Slot.obj 3, Slot.raw], 4⟩, 3⟩ 0).1.elements
        = [Slot.obj 2, Slot.obj 3]
      ∧ (Vector.Erase ⟨⟨some [Slot.obj 1, Slot.obj 2, Slot.obj 3, Slot.raw], 4⟩, 3⟩ 1).1.elements
        = [Slot.obj 1, Slot.obj 3]
      ∧ (Vector.Erase ⟨⟨some [Slot.obj 1, Slot.obj 2, Slot.obj 3, Slot.raw], 4⟩, 3⟩ 2).1.elements
        = [Slot.obj 1, Slot.obj 2] :=
  ⟨(C3_erase_elements ⟨⟨some [Slot.obj 1, Slot.obj 2, Slot.obj 3, Slot.raw], 4⟩, 3⟩ [1, 2, 3] 0
      (by decide) (by decide) (by decide)).2.1,
    (C3_erase_elements ⟨⟨some [Slot.obj 1, Slot.obj 2, Slot.obj 3, Slot.raw], 4⟩, 3⟩ [1, 2, 3] 1
      (by decide) (by decide) (by decide)).2.1,
    (C3_erase_elements ⟨⟨some [Slot.obj 1, Slot.obj 2, Slot.obj 3, Slot.raw], 4⟩, 3⟩ [1, 2, 3] 2
      (by decide) (by decide) (by decide)).2.1⟩

/-- C5: copy construction of `B` from `A` (taken by const reference, so `A`
is the same before and after) gives `B.Size() == A.Size()` and
`B[i] == A[i]` for every `i < A.Size()`. -/
theorem C5_copy_construct [ElementTraits α] (A : Vector α) (hwf : A.WF) :
    (Vector.ctor_copy A).Size = A.Size
      ∧ ∀ i, i < A.Size → (Vector.ctor_copy A).get i = A.get i := by
  obtain ⟨e, h0⟩ := hwf.holds
  have h := h0.ctor_copy (fits_of_le hwf.fits h0.size_le)
  refine ⟨by rw [h.Size, h0.Size], ?_⟩
  intro i hi
  rw [h0.Size] at hi
  rw [h.get i hi, h0.get i hi]

/-- C5 at a two-element vector of capacity four: the copy has size two and
the same element at index one. -/
theorem C5_copy_construct_witness :
    (Vector.ctor_copy
        (⟨⟨some [Slot.obj 5, Slot.obj 6, Slot.raw, Slot.raw], 4⟩, 2⟩ : Vector Nat)).Size = 2
      ∧ (Vector.ctor_copy
        (⟨⟨some [Slot.obj 5, Slot.obj 6, Slot.raw, Slot.raw], 4⟩, 2⟩ : Vector Nat)).get 1
        = Slot.obj 6 :=
  ⟨(C5_copy_construct ⟨⟨some [Slot.obj 5, Slot.obj 6, Slot.raw, Slot.raw], 4⟩, 2⟩
      (by decide)).1,
    (C5_copy_construct ⟨⟨some [Slot.obj 5, Slot.obj 6, Slot.raw, Slot.raw], 4⟩, 2⟩
      (by decide)).2 1 (by decide)⟩

/-- C6: after the copy assignment `A = B`, `A.Size() == B.Size()` and
`A[i] == B[i]` for every `i < B.Size()`; when `B.Size() > A.Capacity()` the
new capacity of `A` is `B.Size()`, and otherwise it is unchanged. -/
theorem C6_copy_assign [ElementTraits α] (A B : Vector α) (hA : A.WF) (hB : B.WF) :
    (A.assign_copy B).Size = B.Size
      ∧ (∀ i, i < B.Size → (A.assign_copy B).get i = B.get i)
      ∧ (B.Size > A.Capacity → (A.assign_copy B).Capacity = B.Size)
      ∧ (B.Size ≤ A.Capacity → (A.assign_copy B).Capacity = A.Capacity) := by
  obtain ⟨ea, ha⟩ := hA.holds
  obtain ⟨eb, hb⟩ := hB.holds
  have h := ha.assign_copy hb (fits_of_le hB.fits hb.size_le)
  refine ⟨by rw [h.Size, hb.Size], ?_, ?_, ?_⟩
  · intro i hi
    rw [hb.Size] at hi
    rw [h.get i hi, hb.get i hi]
  · intro hgt
    rw [hb.Size] at hgt
    rw [h.Capacity, if_pos hgt, hb.Size]
  · intro hle
    rw [hb.Size] at hle
    rw [h.Capacity, if_neg (by omega)]

/-- C6 on the copy-and-swap path and on the in-place path with a smaller, an
equal and a larger source. -/
theorem C6_copy_assign_witness :
    (Vector.assign_copy (⟨⟨some [Slot.obj 1], 1⟩, 1⟩ : Vector Nat)
        ⟨⟨some [Slot.obj 7, Slot.obj 8, Slot.raw], 3⟩, 2⟩).Capacity = 2
      ∧ (Vector.assign_copy (⟨⟨some [Slot.obj 1, Slot.obj 2, Slot.obj 3], 3⟩, 3⟩ : Vector Nat)
        ⟨⟨some [Slot.obj 7, Slot.obj 8, Slot.raw], 3⟩, 2⟩).Size = 2
      ∧ (Vector.assign_copy (⟨⟨some [Slot.obj 1, Slot.obj 2, Slot.raw], 3⟩, 2⟩ : Vector Nat)
        ⟨⟨some [Slot.obj 7, Slot.obj 8, Slot.raw], 3⟩, 2⟩).get 1 = Slot.obj 8
      ∧ (Vector.assign_copy (⟨⟨some [Slot.obj 1, Slot.raw, Slot.raw], 3⟩, 1⟩ : Vector Nat)
        ⟨⟨some [Slot.obj 7, Slot.obj 8, Slot.raw], 3⟩, 2⟩).get 1 = Slot.obj 8 :=
  ⟨(C6_copy_assign ⟨⟨some [Slot.obj 1], 1⟩, 1⟩
      ⟨⟨some [Slot.obj 7, Slot.obj 8, Slot.raw], 3⟩, 2⟩ (by decide) (by decide)).2.2.1
      (by decide),
    (C6_copy_assign ⟨⟨some [Slot.obj 1, Slot.obj 2, Slot.obj 3], 3⟩, 3⟩
      ⟨⟨some [Slot.obj 7, Slot.obj 8, Slot.raw], 3⟩, 2⟩ (by decide) (by decide)).1,
    (C6_copy_assign ⟨⟨some [Slot.obj 1, Slot.obj 2, Slot.raw], 3⟩, 2⟩
      ⟨⟨some [Slot.obj 7, Slot.obj 8, Slot.raw], 3⟩, 2⟩ (by decide) (by decide)).2.1 1
      (by decide),
    (C6_copy_assign ⟨⟨some [Slot.obj 1, Slot.raw, Slot.raw], 3⟩, 1⟩
      ⟨⟨some [Slot.obj 7, Slot.obj 8, Slot.raw], 3⟩, 2⟩ (by decide) (by decide)).2.1 1
      (by decide)⟩

/-- C7, as stated, fails: with `B` holding `[1]` and `A` holding `[2, 3]`,
both well formed, `B = std::move(A)` leaves `A` with size one, not zero. -/
theorem C7_move_assign_counterexample :
    (⟨⟨some [Slot.obj 1], 1⟩, 1⟩ : Vector Nat).WF
      ∧ (⟨⟨some [Slot.obj 2, Slot.obj 3], 2⟩, 2⟩ : Vector Nat).WF
      ∧ (Vector.assign_move (⟨⟨some [Slot.obj 1], 1⟩, 1⟩ : Vector Nat)
          ⟨⟨some [Slot.obj 2, Slot.obj 3], 2⟩, 2⟩).2.Size = 1
      ∧ ¬ ((Vector.assign_move (⟨⟨some [Slot.obj 1], 1⟩, 1⟩ : Vector Nat)
          ⟨⟨some [Slot.obj 2, Slot.obj 3], 2⟩, 2⟩).2.Size = 0) := by
  decide

/-- C7, amended: after the move assignment `B = std::move(A)`, `B` holds
exactly what `A` held beforehand (size, capacity, elements) and `A` holds
exactly what `B` held beforehand; `A.Size() == 0` afterwards when `B` was
empty beforehand. -/
theorem C7_move_assign (A B : Vector α) :
    (B.assign_move A).1.Size = A.Size
      ∧ (B.assign_move A).1.Capacity = A.Capacity
      ∧ (B.assign_move A).1.elements = A.elements
      ∧ (B.assign_move A).2.Size = B.Size
      ∧ (B.assign_move A).2.Capacity = B.Capacity
      ∧ (B.assign_move A).2.elements = B.elements
      ∧ (B.Size = 0 → (B.assign_move A).2.Size = 0) :=
  ⟨rfl, rfl, rfl, rfl, rfl, rfl, fun h => h⟩

/-- C8: move construction of `B` from `A` gives `B` exactly the former size,
capacity and elements of `A` and leaves `A` empty, with size and capacity
zero (and a null block). -/
theorem C8_move_construct (A : Vector α) :
    (Vector.ctor_move A).1.Size = A.Size
      ∧ (Vector.ctor_move A).1.Capacity = A.Capacity
      ∧ (Vector.ctor_move A).1.elements = A.elements
      ∧ (Vector.ctor_move A).2.Size = 0
      ∧ (Vector.ctor_move A).2.Capacity = 0
      ∧ (Vector.ctor_move A).2.data_.buffer_ = none :=
  ⟨rfl, rfl, rfl, rfl, rfl, rfl⟩

/-- C9: after `Emplace`/`Insert` at a position `p <= Size()`, and after
`EmplaceBack`/`PushBack`: when `Size() == Capacity()` held beforehand the new
capacity is `max(1, 2 * old capacity)`, and when `Size() < Capacity()` held
the capacity is unchanged. -/
theorem C9_emplace_capacity [ElementTraits α] (v : Vector α) (p : Nat) (x : α)
    (hwf : v.WF) (hp : p ≤ v.Size) :
    (v.Size = v.Capacity →
        (v.Emplace p x).1.Capacity = max 1 (2 * v.Capacity)
          ∧ (v.Insert p x).1.Capacity = max 1 (2 * v.Capacity)
          ∧ (v.EmplaceBack x).1.Capacity = max 1 (2 * v.Capacity)
          ∧ (v.PushBack x).Capacity = max 1 (2 * v.Capacity))
      ∧ (v.Size < v.Capacity →
        (v.Emplace p x).1.Capacity = v.Capacity
          ∧ (v.Insert p x).1.Capacity = v.Capacity
          ∧ (v.EmplaceBack x).1.Capacity = v.Capacity
          ∧ (v.PushBack x).Capacity = v.Capacity) := by
  obtain ⟨e, h⟩ := hwf.holds
  rw [h.Size] at hp
  have h1 := (h.Emplace p x hp (fun _ => hwf.fits)).1.Capacity
  have h2 := (h.EmplaceBack x (fun _ => hwf.fits)).Capacity
  have h3 : (v.Insert p x).1.Capacity = (v.Emplace p x).1.Capacity := rfl
  have h4 : (v.PushBack x).Capacity = (v.EmplaceBack x).1.Capacity := rfl
  rw [h3, h4, h1, h2, h.Size]
  constructor
  · intro heq
    rw [if_pos heq]
    have : (if v.Capacity = 0 then 1 else v.Capacity * 2) = max 1 (2 * v.Capacity) := by
      split <;> omega
    exact ⟨this, this, this, this⟩
  · intro hlt
    rw [if_neg (by omega)]
    exact ⟨rfl, rfl, rfl, rfl⟩

/-- C9 at full capacity (zero and two) and with spare capacity. -/
theorem C9_emplace_capacity_witness :
    ((Vector.ctor_default : Vector Nat).PushBack 4).Capacity = 1
      ∧ (Vector.Insert (⟨⟨some [Slot.obj 1, Slot.obj 2], 2⟩, 2⟩ : Vector Nat) 1 7).1.Capacity = 4
      ∧ (Vector.Emplace (⟨⟨some [Slot.obj 1, Slot.obj 2, Slot.raw], 3⟩, 2⟩ : Vector Nat)
          0 7).1.Capacity = 3 :=
  ⟨((C9_emplace_capacity (Vector.ctor_default : Vector Nat) 0 4 (by decide) (by decide)).1
      (by decide)).2.2.2,
    ((C9_emplace_capacity (⟨⟨some [Slot.obj 1, Slot.obj 2], 2⟩, 2⟩ : Vector Nat) 1 7
      (by decide) (by decide)).1 (by decide)).2.1,
    ((C9_emplace_capacity (⟨⟨some [Slot.obj 1, Slot.obj 2, Slot.raw], 3⟩, 2⟩ : Vector Nat) 0 7
      (by decide) (by decide)).2 (by decide)).1⟩

/-- C10, as stated, fails: `Reserve(5)` on the default-constructed vector
raises the capacity from zero to five, not to one, and `Resize(5)` on a full
vector of capacity two raises it to five, not to four. -/
theorem C10_growth_counterexample :
    (Vector.ctor_default : Vector Nat).Capacity = 0
      ∧ ((Vector.ctor_default : Vector Nat).Reserve 5).Capacity = 5
      ∧ (⟨⟨some [Slot.obj 1, Slot.obj 2], 2⟩, 2⟩ : Vector Nat).WF
      ∧ (Vector.Resize (⟨⟨some [Slot.obj 1, Slot.obj 2], 2⟩, 2⟩ : Vector Nat) 5).Capacity = 5
      ∧ ¬ (∀ (v : Vector Nat) (n : Nat), v.WF → v.Capacity < (v.Reserve n).Capacity →
          (v.Reserve n).Capacity = if v.Capacity = 0 then 1 else 2 * v.Capacity) := by
  refine ⟨by decide, by decide, by decide, by decide, ?_⟩
  intro h
  exact absurd (h Vector.ctor_default 5 (by decide) (by decide)) (by decide)

/-- C10, amended: a call of `Emplace`, `Insert`, `EmplaceBack` or `PushBack`
within its precondition that leaves a larger capacity leaves twice the
previous capacity, or one when the previous capacity was zero; a call of
`Reserve(n)` or `Resize(n)` that leaves a larger capacity leaves the capacity
`n`. -/
theorem C10_growth [Inhabited α] [ElementTraits α] (v : Vector α) (p n : Nat) (x : α)
    (hwf : v.WF) (hp : p ≤ v.Size) :
    (v.Capacity < (v.Emplace p x).1.Capacity →
        (v.Emplace p x).1.Capacity = if v.Capacity = 0 then 1 else 2 * v.Capacity)
      ∧ (v.Capacity < (v.Insert p x).1.Capacity →
        (v.Insert p x).1.Capacity = if v.Capacity = 0 then 1 else 2 * v.Capacity)
      ∧ (v.Capacity < (v.EmplaceBack x).1.Capacity →
        (v.EmplaceBack x).1.Capacity = if v.Capacity = 0 then 1 else 2 * v.Capacity)
      ∧ (v.Capacity < (v.PushBack x).Capacity →
        (v.PushBack x).Capacity = if v.Capacity = 0 then 1 else 2 * v.Capacity)
      ∧ (v.Capacity < (v.Reserve n).Capacity → (v.Reserve n).Capacity = n)
      ∧ (v.Capacity < (v.Resize n).Capacity → (v.Resize n).Capacity = n) := by
  obtain ⟨e, h⟩ := hwf.holds
  rw [h.Size] at hp
  have h1 := (h.Emplace p x hp (fun _ => hwf.fits)).1.Capacity
  have h2 := (h.EmplaceBack x (fun _ => hwf.fits)).Capacity
  have h3 : (v.Insert p x).1.Capacity = (v.Emplace p x).1.Capacity := rfl
  have h4 : (v.PushBack x).Capacity = (v.EmplaceBack x).1.Capacity := rfl
  have h5 := Vector.capacity_Reserve v n
  have h6 := Vector.capacity_Resize_of_le v n (by rw [h.Size]; exact h.size_le)
  have hg : v.Capacity < (if e.length = v.Capacity then
        (if v.Capacity = 0 then 1 else v.Capacity * 2) else v.Capacity) →
      (if e.length = v.Capacity then (if v.Capacity = 0 then 1 else v.Capacity * 2)
        else v.Capacity) = if v.Capacity = 0 then 1 else 2 * v.Capacity := by
    intro hlt
    split at hlt
    · rw [if_pos (by assumption)]
      split <;> omega
    · omega
  have hr : v.Capacity < (if n ≤ v.Capacity then v.Capacity else n) →
      (if n ≤ v.Capacity then v.Capacity else n) = n := by
    intro hlt
    split at hlt
    · omega
    · rw [if_neg (by assumption)]
  rw [h3, h4, h1, h2, h5, h6]
  exact ⟨hg, hg, hg, hg, hr, hr⟩

/-- C10, amended, at a growing insertion, a growing `Reserve` and a growing
`Resize`. -/
theorem C10_growth_witness :
    (Vector.Insert (⟨⟨some [Slot.obj 1, Slot.obj 2], 2⟩, 2⟩ : Vector Nat) 1 7).1.Capacity = 4
      ∧ (Vector.Reserve (⟨⟨some [Slot.obj 1, Slot.obj 2], 2⟩, 2⟩ : Vector Nat) 5).Capacity = 5
      ∧ (Vector.Resize (⟨⟨some [Slot.obj 1, Slot.obj 2], 2⟩, 2⟩ : Vector Nat) 5).Capacity = 5 :=
  ⟨(C10_growth (⟨⟨some [Slot.obj 1, Slot.obj 2], 2⟩, 2⟩ : Vector Nat) 1 5 7
      (by decide) (by decide)).2.1 (by decide),
    (C10_growth (⟨⟨some [Slot.obj 1, Slot.obj 2], 2⟩, 2⟩ : Vector Nat) 1 5 7
      (by decide) (by decide)).2.2.2.2.1 (by decide),
    (C10_growth (⟨⟨some [Slot.obj 1, Slot.obj 2], 2⟩, 2⟩ : Vector Nat) 1 5 7
      (by decide) (by decide)).2.2.2.2.2 (by decide)⟩

end Claims

section FailureFacts
variable {α : Type}

/-- When the construction succeeds, the throwing model of `Emplace` is
`Emplace`. -/
theorem Vector.Emplace_throwing_some [ElementTraits α] (v : Vector α) (p : Nat) (x : α) :
    v.Emplace_throwing p (some x) = ((v.Emplace p x).1, some (v.Emplace p x).2) := by
  unfold Vector.Emplace_throwing Vector.Emplace
  by_cases h1 : v.size_ = p
  · by_cases h2 : v.size_ = v.Capacity
    · simp only [if_pos h1, if_pos h2]
    · simp only [if_pos h1, if_neg h2]
  · by_cases h3 : v.size_ < v.Capacity
    · simp only [if_neg h1, if_pos h3]
    · simp only [if_neg h1, if_neg h3]

/-- When the construction throws, `Emplace` leaves the vector as it was. -/
theorem Vector.Emplace_throwing_none [ElementTraits α] (v : Vector α) (p : Nat) :
    v.Emplace_throwing p none = (v, none) := by
  unfold Vector.Emplace_throwing
  by_cases h1 : v.size_ = p
  · by_cases h2 : v.size_ = v.Capacity
    · simp only [if_pos h1, if_pos h2]
    · simp only [if_pos h1, if_neg h2]
  · by_cases h3 : v.size_ < v.Capacity
    · simp only [if_neg h1, if_pos h3]
    · simp only [if_neg h1, if_neg h3]

/-- Value construction of `k` raw cells followed by their destruction. -/
theorem block_value_construct_rollback [Inhabited α] (e : List α) (c n k : Nat)
    (hn : n = e.length) (hk : n + k ≤ c) :
    uninitialized_value_construct_n_throwing (Vector.layout e c) n k = Vector.layout e c := by
  have hs := replicate_split (Slot.raw : Slot α) (c - e.length) k (c - e.length - k)
    (by omega)
  have h1 := uninitialized_value_construct_n_shape (e.map Slot.obj)
    (List.replicate k Slot.raw) (List.replicate (c - e.length - k) Slot.raw) n k
    (by simp [hn]) (by simp)
  have h2 := destroy_n_shape (e.map Slot.obj) (List.replicate k (Slot.obj (default : α)))
    (List.replicate (c - e.length - k) Slot.raw) n k (by simp [hn]) (by simp)
  simp only [uninitialized_value_construct_n_throwing, Vector.layout, hs]
  simp only [← List.append_assoc]
  rw [h1, h2]

theorem Vector.Holds.Resize_throwing [Inhabited α] [ElementTraits α] {v : Vector α}
    {e : List α} {c : Nat} (h : v.Holds e c) (n k : Nat) (hn : e.length < n)
    (hk : k < n - e.length) (hfit : c < n → n * ElementTraits.sizeof α < SIZE_MAX + 1) :
    (v.Resize_throwing n k).Holds e (if n ≤ c then c else n) := by
  have hr := h.Reserve n hfit
  have hrs : (v.Reserve n).Size = e.length := hr.size_eq
  have hrs2 : (v.Reserve n).size_ = e.length := hr.size_eq
  unfold Vector.Resize_throwing
  rw [h.size_eq, if_pos hn]
  show Vector.Holds ⟨(v.Reserve n).data_.store
    (uninitialized_value_construct_n_throwing (v.Reserve n).data_.cells (v.Reserve n).Size k),
    (v.Reserve n).size_⟩ _ _
  rw [hrs, hrs2, hr.cells_eq]
  refine Vector.holds_store _ _ _ _ _ hr.capacity_eq hr.null_iff hr.length_cells
    hr.size_le ?_ rfl
  exact block_value_construct_rollback e _ _ k rfl (by split <;> omega)

end FailureFacts

section Claims2
variable {α : Type}

/-- C11: a call, within its precondition, of Emplace, Insert, EmplaceBack,
PushBack, Erase, PopBack, Resize, Reserve or copy assignment never leaves a
smaller capacity. -/
theorem C11_capacity_monotone [Inhabited α] [ElementTraits α] (v other : Vector α)
    (p q n m : Nat) (x : α) (hwf : v.WF) :
    (p ≤ v.Size → v.Capacity ≤ (v.Emplace p x).1.Capacity)
      ∧ (p ≤ v.Size → v.Capacity ≤ (v.Insert p x).1.Capacity)
      ∧ v.Capacity ≤ (v.EmplaceBack x).1.Capacity
      ∧ v.Capacity ≤ (v.PushBack x).Capacity
      ∧ (q < v.Size → v.Capacity ≤ (v.Erase q).1.Capacity)
      ∧ (0 < v.Size → v.Capacity ≤ v.PopBack.Capacity)
      ∧ v.Capacity ≤ (v.Resize n).Capacity
      ∧ v.Capacity ≤ (v.Reserve m).Capacity
      ∧ (other.WF → v.Capacity ≤ (v.assign_copy other).Capacity) := by
  obtain ⟨e, h⟩ := hwf.holds
  have hgrow : v.Capacity ≤ (if e.length = v.Capacity then
      (if v.Capacity = 0 then 1 else v.Capacity * 2) else v.Capacity) := by
    split
    · split <;> omega
    · exact Nat.le_refl _
  have hInsert : (v.Insert p x).1.Capacity = (v.Emplace p x).1.Capacity := rfl
  have hPush : (v.PushBack x).Capacity = (v.EmplaceBack x).1.Capacity := rfl
  refine ⟨?_, ?_, ?_, ?_, ?_, ?_, ?_, ?_, ?_⟩
  · intro hp
    rw [(h.Emplace p x (by rw [← h.Size]; exact hp) (fun _ => hwf.fits)).1.Capacity]
    exact hgrow
  · intro hp
    rw [hInsert, (h.Emplace p x (by rw [← h.Size]; exact hp) (fun _ => hwf.fits)).1.Capacity]
    exact hgrow
  · rw [(h.EmplaceBack x (fun _ => hwf.fits)).Capacity]
    exact hgrow
  · rw [hPush, (h.EmplaceBack x (fun _ => hwf.fits)).Capacity]
    exact hgrow
  · intro hq
    rw [(h.Erase q (by rw [← h.Size]; exact hq)).1.Capacity]
  · intro hpos
    rw [(h.PopBack (by rw [← h.Size]; exact hpos)).Capacity]
  · rw [Vector.capacity_Resize_of_le v n (by rw [h.Size]; exact h.size_le)]
    split <;> omega
  · rw [Vector.capacity_Reserve]
    split <;> omega
  · intro _
    rw [Vector.capacity_assign_copy]
    split <;> omega

/-- C11 at a full two-element vector: an insertion, an erasure, a shrinking
`Resize` and a copy assignment from a shorter vector. -/
theorem C11_capacity_monotone_witness :
    2 ≤ (Vector.Insert (⟨⟨some [Slot.obj 1, Slot.obj 2], 2⟩, 2⟩ : Vector Nat) 1 7).1.Capacity
      ∧ 2 ≤ (Vector.Erase (⟨⟨some [Slot.obj 1, Slot.obj 2], 2⟩, 2⟩ : Vector Nat) 0).1.Capacity
      ∧ 2 ≤ (Vector.Resize (⟨⟨some [Slot.obj 1, Slot.obj 2], 2⟩, 2⟩ : Vector Nat) 0).Capacity
      ∧ 2 ≤ (Vector.assign_copy (⟨⟨some [Slot.obj 1, Slot.obj 2], 2⟩, 2⟩ : Vector Nat)
          ⟨⟨some [Slot.obj 9], 1⟩, 1⟩).Capacity :=
  ⟨(C11_capacity_monotone (⟨⟨some [Slot.obj 1, Slot.obj 2], 2⟩, 2⟩ : Vector Nat)
      ⟨⟨some [Slot.obj 9], 1⟩, 1⟩ 1 0 0 0 7 (by decide)).2.1 (by decide),
    (C11_capacity_monotone (⟨⟨some [Slot.obj 1, Slot.obj 2], 2⟩, 2⟩ : Vector Nat)
      ⟨⟨some [Slot.obj 9], 1⟩, 1⟩ 1 0 0 0 7 (by decide)).2.2.2.2.1 (by decide),
    (C11_capacity_monotone (⟨⟨some [Slot.obj 1, Slot.obj 2], 2⟩, 2⟩ : Vector Nat)
      ⟨⟨some [Slot.obj 9], 1⟩, 1⟩ 1 0 0 0 7 (by decide)).2.2.2.2.2.2.1,
    (C11_capacity_monotone (⟨⟨some [Slot.obj 1, Slot.obj 2], 2⟩, 2⟩ : Vector Nat)
      ⟨⟨some [Slot.obj 9], 1⟩, 1⟩ 1 0 0 0 7 (by decide)).2.2.2.2.2.2.2.2 (by decide)⟩

/-- C12: from a default-constructed vector of integers, `PushBack(1)`,
`PushBack(2)`, `PushBack(3)` give `[1, 2, 3]` with capacities 0, 1, 2, 4;
`Insert(99)` at index 1 gives `[1, 99, 2, 3]`; `Erase` at index 0 gives
`[99, 2, 3]`; `PopBack()` gives `[99, 2]` with size 2, so index 2 is outside
the live range (its cell holds no object). -/
theorem C12_scenario :
    (Vector.ctor_default : Vector Nat).Capacity = 0
      ∧ ((Vector.ctor_default : Vector Nat).PushBack 1).Capacity = 1
      ∧ (((Vector.ctor_default : Vector Nat).PushBack 1).PushBack 2).Capacity = 2
      ∧ ((((Vector.ctor_default : Vector Nat).PushBack 1).PushBack 2).PushBack 3).Capacity = 4
      ∧ ((((Vector.ctor_default : Vector Nat).PushBack 1).PushBack 2).PushBack 3).elements
        = [Slot.obj 1, Slot.obj 2, Slot.obj 3]
      ∧ (((((Vector.ctor_default : Vector Nat).PushBack 1).PushBack 2).PushBack 3).Insert
          1 99).1.elements = [Slot.obj 1, Slot.obj 99, Slot.obj 2, Slot.obj 3]
      ∧ ((((((Vector.ctor_default : Vector Nat).PushBack 1).PushBack 2).PushBack 3).Insert
          1 99).1.Erase 0).1.elements = [Slot.obj 99, Slot.obj 2, Slot.obj 3]
      ∧ ((((((Vector.ctor_default : Vector Nat).PushBack 1).PushBack 2).PushBack 3).Insert
          1 99).1.Erase 0).1.PopBack.elements = [Slot.obj 99, Slot.obj 2]
      ∧ ((((((Vector.ctor_default : Vector Nat).PushBack 1).PushBack 2).PushBack 3).Insert
          1 99).1.Erase 0).1.PopBack.Size = 2
      ∧ ¬ (2 < ((((((Vector.ctor_default : Vector Nat).PushBack 1).PushBack 2).PushBack 3).Insert
          1 99).1.Erase 0).1.PopBack.Size)
      ∧ ((((((Vector.ctor_default : Vector Nat).PushBack 1).PushBack 2).PushBack 3).Insert
          1 99).1.Erase 0).1.PopBack.get 2 = Slot.raw := by
  decide

/-- C14: when the construction of the new element throws during `Emplace`,
no iterator is returned and the vector is left as it was: same object, hence
same size, capacity and elements.  This holds on every path, so on the append
path (with or without spare capacity) and on the middle-insertion path at
full capacity. -/
theorem C14_emplace_strong_safety [ElementTraits α] (v : Vector α) (p : Nat) :
    (v.Emplace_throwing p none).2 = none
      ∧ (v.Emplace_throwing p none).1 = v
      ∧ (v.Emplace_throwing p none).1.Size = v.Size
      ∧ (v.Emplace_throwing p none).1.Capacity = v.Capacity
      ∧ (v.Emplace_throwing p none).1.elements = v.elements := by
  rw [Vector.Emplace_throwing_none]
  exact ⟨rfl, rfl, rfl, rfl, rfl⟩

/-- C15, as stated, fails: when the value construction of the first new
element throws during `Resize(1)` on the default-constructed vector, or
during `Resize(3)` on a full vector of capacity two, the capacity has already
been raised by `Reserve`. -/
theorem C15_resize_strong_safety_counterexample :
    (Vector.ctor_default : Vector Nat).Capacity = 0
      ∧ (Vector.Resize_throwing (Vector.ctor_default : Vector Nat) 1 0).Capacity = 1
      ∧ (⟨⟨some [Slot.obj 1, Slot.obj 2], 2⟩, 2⟩ : Vector Nat).WF
      ∧ (Vector.Resize_throwing (⟨⟨some [Slot.obj 1, Slot.obj 2], 2⟩, 2⟩ : Vector Nat)
          3 0).Capacity = 3
      ∧ ¬ (Vector.Resize_throwing (⟨⟨some [Slot.obj 1, Slot.obj 2], 2⟩, 2⟩ : Vector Nat) 3 0
          = ⟨⟨some [Slot.obj 1, Slot.obj 2], 2⟩, 2⟩) := by
  decide

/-- C15, amended: when the value construction of a newly exposed element
throws during `Resize(n)` with `n > Size()`, for `n` whose byte count
`n * sizeof(T)` does not wrap in `size_t`, the size and the elements are
unchanged; the capacity is unchanged when `n <= Capacity()` held beforehand,
and the capacity is `n` when `n > Capacity()` held beforehand. -/
theorem C15_resize_strong_safety [Inhabited α] [ElementTraits α] (v : Vector α) (n k : Nat)
    (hwf : v.WF) (hn : v.Size < n) (hk : k < n - v.Size)
    (hfit : n * ElementTraits.sizeof α ≤ SIZE_MAX) :
    (v.Resize_throwing n k).Size = v.Size
      ∧ (v.Resize_throwing n k).elements = v.elements
      ∧ (n ≤ v.Capacity → (v.Resize_throwing n k).Capacity = v.Capacity)
      ∧ (v.Capacity < n → (v.Resize_throwing n k).Capacity = n) := by
  obtain ⟨e, h0⟩ := hwf.holds
  rw [h0.Size] at hn hk
  have h := h0.Resize_throwing n k hn hk (fun _ => Nat.lt_succ_of_le hfit)
  refine ⟨by rw [h.Size, h0.Size], by rw [h.elements, h0.elements], ?_, ?_⟩
  · intro hle
    rw [h.Capacity, if_pos hle]
  · intro hlt
    rw [h.Capacity, if_neg (by omega)]

/-- C15, amended, at a two-element vector of capacity four (growing within
the capacity) and of capacity two (growing beyond it), the second new element
throwing. -/
theorem C15_resize_strong_safety_witness :
    (Vector.Resize_throwing
        (⟨⟨some [Slot.obj 1, Slot.obj 2, Slot.raw, Slot.raw], 4⟩, 2⟩ : Vector Nat) 4 1).Capacity
        = 4
      ∧ (Vector.Resize_throwing
        (⟨⟨some [Slot.obj 1, Slot.obj 2, Slot.raw, Slot.raw], 4⟩, 2⟩ : Vector Nat) 4 1).elements
        = [Slot.obj 1, Slot.obj 2]
      ∧ (Vector.Resize_throwing (⟨⟨some [Slot.obj 1, Slot.obj 2], 2⟩, 2⟩ : Vector Nat)
          4 1).Capacity = 4
      ∧ (Vector.Resize_throwing (⟨⟨some [Slot.obj 1, Slot.obj 2], 2⟩, 2⟩ : Vector Nat)
          4 1).Size = 2 :=
  ⟨(C15_resize_strong_safety
      (⟨⟨some [Slot.obj 1, Slot.obj 2, Slot.raw, Slot.raw], 4⟩, 2⟩ : Vector Nat) 4 1
      (by decide) (by decide) (by decide) (by decide)).2.2.1 (by decide),
    (C15_resize_strong_safety
      (⟨⟨some [Slot.obj 1, Slot.obj 2, Slot.raw, Slot.raw], 4⟩, 2⟩ : Vector Nat) 4 1
      (by decide) (by decide) (by decide) (by decide)).2.1,
    (C15_resize_strong_safety (⟨⟨some [Slot.obj 1, Slot.obj 2], 2⟩, 2⟩ : Vector Nat) 4 1
      (by decide) (by decide) (by decide) (by decide)).2.2.2 (by decide),
    (C15_resize_strong_safety (⟨⟨some [Slot.obj 1, Slot.obj 2], 2⟩, 2⟩ : Vector Nat) 4 1
      (by decide) (by decide) (by decide) (by decide)).1⟩

/-- C16, as stated, fails: move assignment of a `RawMemory` of capacity three
to one of capacity two leaves the source with the block and the capacity two
of the destination, not in the empty state. -/
theorem C16_raw_memory_move_counterexample :
    (RawMemory.assign_move (⟨some [Slot.raw, Slot.raw], 2⟩ : RawMemory Nat)
        ⟨some [Slot.raw, Slot.raw, Slot.raw], 3⟩).2.Capacity = 2
      ∧ (RawMemory.assign_move (⟨some [Slot.raw, Slot.raw], 2⟩ : RawMemory Nat)
        ⟨some [Slot.raw, Slot.raw, Slot.raw], 3⟩).2.buffer_ = some [Slot.raw, Slot.raw]
      ∧ ¬ ((RawMemory.assign_move (⟨some [Slot.raw, Slot.raw], 2⟩ : RawMemory Nat)
          ⟨some [Slot.raw, Slot.raw, Slot.raw], 3⟩).2.buffer_ = none
        ∧ (RawMemory.assign_move (⟨some [Slot.raw, Slot.raw], 2⟩ : RawMemory Nat)
          ⟨some [Slot.raw, Slot.raw, Slot.raw], 3⟩).2.Capacity = 0) := by
  decide

/-- C16, amended: move construction and move assignment both transfer the
block and the capacity of the source to the destination; move construction
leaves the source in the empty state (null block, capacity zero), and move
assignment leaves the source with the former block and capacity of the
destination, which is the empty state when the destination was empty. -/
theorem C16_raw_memory_move (src dst : RawMemory α) :
    (RawMemory.ctor_move src).1.buffer_ = src.buffer_
      ∧ (RawMemory.ctor_move src).1.Capacity = src.Capacity
      ∧ (RawMemory.ctor_move src).2.buffer_ = none
      ∧ (RawMemory.ctor_move src).2.Capacity = 0
      ∧ (dst.assign_move src).1.buffer_ = src.buffer_
      ∧ (dst.assign_move src).1.Capacity = src.Capacity
      ∧ (dst.assign_move src).2.buffer_ = dst.buffer_
      ∧ (dst.assign_move src).2.Capacity = dst.Capacity
      ∧ (dst.buffer_ = none ∧ dst.Capacity = 0 →
          (dst.assign_move src).2.buffer_ = none ∧ (dst.assign_move src).2.Capacity = 0) :=
  ⟨rfl, rfl, rfl, rfl, rfl, rfl, rfl, rfl, fun h => h⟩

/-- The cell at an index whose value is known. -/
theorem Vector.Holds.get_of_getElem? {v : Vector α} {e : List α} {c : Nat} (h : v.Holds e c)
    (i : Nat) (a : α) (ha : e[i]? = some a) : v.get i = Slot.obj a := by
  obtain ⟨hi, hget⟩ := List.getElem?_eq_some.mp ha
  rw [h.get i hi, List.get_eq_getElem, hget]

/-- The value at the position of an insertion. -/
theorem getElem?_insert (e : List α) (p : Nat) (x : α) (hp : p ≤ e.length) :
    (e.take p ++ x :: e.drop p)[p]? = some x := by
  rw [List.getElem?_append_right (by simp)]
  simp [Nat.min_eq_left hp]

/-- C17: the iterator returned by `Emplace`/`Insert` at a position
`p <= Size()` is at offset `p` from `begin()` of the resulting vector, and the
element it addresses is the inserted value. -/
theorem C17_emplace_iterator [ElementTraits α] (v : Vector α) (p : Nat) (x : α)
    (hwf : v.WF) (hp : p ≤ v.Size) :
    (v.Emplace p x).2 = p
      ∧ (v.Emplace p x).1.get (v.Emplace p x).2 = Slot.obj x
      ∧ (v.Insert p x).2 = p
      ∧ (v.Insert p x).1.get (v.Insert p x).2 = Slot.obj x := by
  obtain ⟨e, h⟩ := hwf.holds
  rw [h.Size] at hp
  obtain ⟨h1, h2⟩ := h.Emplace p x hp (fun _ => hwf.fits)
  have hget : (v.Emplace p x).1.get (v.Emplace p x).2 = Slot.obj x := by
    rw [h2]
    exact h1.get_of_getElem? p x (getElem?_insert e p x hp)
  exact ⟨h2, hget, h2, hget⟩

/-- C17 on the four paths of `Emplace`: the returned offset and the cell it
addresses, also after a reallocation. -/
theorem C17_emplace_iterator_witness :
    (Vector.Emplace (⟨⟨some [Slot.obj 1, Slot.raw], 2⟩, 1⟩ : Vector Nat) 1 7).2 = 1
      ∧ (Vector.Emplace (⟨⟨some [Slot.obj 1], 1⟩, 1⟩ : Vector Nat) 1 7).1.get 1 = Slot.obj 7
      ∧ (Vector.Insert (⟨⟨some [Slot.obj 1, Slot.obj 2, Slot.raw], 3⟩, 2⟩ : Vector Nat)
          0 7).1.get 0 = Slot.obj 7
      ∧ (Vector.Insert (⟨⟨some [Slot.obj 1, Slot.obj 2], 2⟩, 2⟩ : Vector Nat) 1 7).1.get 1
        = Slot.obj 7 :=
  ⟨(C17_emplace_iterator (⟨⟨some [Slot.obj 1, Slot.raw], 2⟩, 1⟩ : Vector Nat) 1 7
      (by decide) (by decide)).1,
    (C17_emplace_iterator (⟨⟨some [Slot.obj 1], 1⟩, 1⟩ : Vector Nat) 1 7
      (by decide) (by decide)).2.1,
    (C17_emplace_iterator (⟨⟨some [Slot.obj 1, Slot.obj 2, Slot.raw], 3⟩, 2⟩ : Vector Nat) 0 7
      (by decide) (by decide)).2.2.2,
    (C17_emplace_iterator (⟨⟨some [Slot.obj 1, Slot.obj 2], 2⟩, 2⟩ : Vector Nat) 1 7
      (by decide) (by decide)).2.2.2⟩

/-- C18: after `k` calls of `PushBack` on a default-constructed vector (the
pushed values being the `k` members of `xs`), the size is `k`, and the
capacity is zero when `k == 0` and otherwise the smallest power of two that
is `>= k`. -/
theorem C18_push_backs_capacity [ElementTraits α] (xs : List α) :
    ((Vector.ctor_default : Vector α).push_backs xs).Size = xs.length
      ∧ (xs.length = 0 → ((Vector.ctor_default : Vector α).push_backs xs).Capacity = 0)
      ∧ (0 < xs.length →
          ∃ j, ((Vector.ctor_default : Vector α).push_backs xs).Capacity = 2 ^ j
            ∧ xs.length ≤ 2 ^ j ∧ ∀ i, xs.length ≤ 2 ^ i → 2 ^ j ≤ 2 ^ i) := by
  obtain ⟨hsz, hc⟩ := Vector.push_backs_counters (Vector.ctor_default : Vector α) xs
    (Or.inl ⟨rfl, rfl⟩)
  have hsz2 : ((Vector.ctor_default : Vector α).push_backs xs).Size = xs.length := by
    rw [hsz]
    show 0 + xs.length = xs.length
    omega
  rw [hsz2] at hc
  refine ⟨hsz2, ?_, ?_⟩
  · intro h0
    rcases hc with ⟨_, hc0⟩ | ⟨j, _, _, hlt⟩
    · exact hc0
    · omega
  · intro hpos
    rcases hc with ⟨h0, _⟩ | ⟨j, hj, hle, hlt⟩
    · omega
    · refine ⟨j, hj, hle, ?_⟩
      intro i hi
      by_contra hcon
      have hij : i + 1 ≤ j := by
        by_contra hji
        exact hcon (Nat.pow_le_pow_right (by decide) (by omega))
      have h2 : 2 ^ (i + 1) ≤ 2 ^ j := Nat.pow_le_pow_right (by decide) hij
      rw [Nat.pow_succ] at h2
      omega

/-- C19: on a vector with elements `e`, `Insert(p, x)` followed by `Erase(p)`
restores the size and the elements; the capacity has not shrunk. -/
theorem C19_insert_erase [ElementTraits α] (v : Vector α) (e : List α) (p : Nat) (x : α)
    (hwf : v.WF) (he : v.elements = e.map Slot.obj) (hp : p ≤ e.length) :
    ((v.Insert p x).1.Erase p).1.Size = v.Size
      ∧ ((v.Insert p x).1.Erase p).1.elements = v.elements
      ∧ v.Capacity ≤ ((v.Insert p x).1.Erase p).1.Capacity := by
  have h0 := hwf.holds_of_elements he
  have h1 := (h0.Insert p x hp (fun _ => hwf.fits)).1
  have h2 := (h1.Erase p (by simp; omega)).1
  have hback : (e.take p ++ x :: e.drop p).take p ++ (e.take p ++ x :: e.drop p).drop (p + 1)
      = e := by
    have hlen : (e.take p).length = p := by simp; omega
    rw [List.take_append_of_le_length (by omega), List.take_of_length_le (by omega)]
    rw [List.drop_append_eq_append_drop, List.drop_of_length_le (by omega), hlen]
    simp
  rw [hback] at h2
  refine ⟨by rw [h2.Size, h0.Size], by rw [h2.elements, he], ?_⟩
  rw [h2.Capacity]
  split
  · split <;> omega
  · exact Nat.le_refl _

/-- C19 at the front (with a reallocation) and at the end (with spare
capacity). -/
theorem C19_insert_erase_witness :
    ((Vector.Insert (⟨⟨some [Slot.obj 1, Slot.obj 2], 2⟩, 2⟩ : Vector Nat) 0 7).1.Erase
        0).1.elements = [Slot.obj 1, Slot.obj 2]
      ∧ ((Vector.Insert (⟨⟨some [Slot.obj 1, Slot.raw], 2⟩, 1⟩ : Vector Nat) 1 7).1.Erase
        1).1.elements = [Slot.obj 1] :=
  ⟨(C19_insert_erase (⟨⟨some [Slot.obj 1, Slot.obj 2], 2⟩, 2⟩ : Vector Nat) [1, 2] 0 7
      (by decide) (by decide) (by decide)).2.1,
    (C19_insert_erase (⟨⟨some [Slot.obj 1, Slot.raw], 2⟩, 1⟩ : Vector Nat) [1] 1 7
      (by decide) (by decide) (by decide)).2.1⟩

end Claims2

end AdvancedVector

